import Mathlib

/-!
Shallow embedding of the herodotus trivia-game engine
(src/game/board.py and src/game/relationships.py) in Lean 4.

Conventions of the embedding:
* Python `Tuple[int, int]` positions become `Pos := Int × Int`.
* Python `set` becomes `Finset`, Python `dict` (insertion ordered, unique
  keys) becomes an association list `List (Pos × Cell)` built with
  `dictInsert`, which mirrors CPython overwrite-in-place semantics.
* Python `float` relationship strengths become `ℚ`; all strengths and
  priorities appearing in the source are exact binary/decimal fractions,
  so ordering comparisons agree with the source for such values.
* `fuzz.ratio` comes from the third-party `fuzzywuzzy` library, not from
  this repository; it is treated as an uninterpreted parameter
  `ratio : String → String → Nat` (its result is an integer 0..100).
* Mutating methods are translated into state passing: a method that
  mutates the board becomes a function returning the new board.
-/

namespace Herodotus

/-- Board positions, Python `Tuple[int, int]` of (row, col). -/
abbrev Pos := Int × Int

/-- relationships.py `RelationType` enum. -/
inductive RelationType where
  | REQUIRES
  | ENABLES
  | HINTS_AT
  | COMPLEMENTS
  | CONTRASTS
  | CHAINS_TO
deriving DecidableEq, Repr

/-- relationships.py `ClueRelationship` dataclass.  `strength` is a Python
float in the source, modelled as `ℚ`. -/
structure ClueRelationship where
  relation_type : RelationType
  source_positions : List Pos
  target_positions : List Pos
  strength : ℚ
  description : String
deriving DecidableEq, Repr

/-- `ClueRelationship.involves_position`. -/
def ClueRelationship.involves_position (r : ClueRelationship) (p : Pos) : Bool :=
  decide (p ∈ r.source_positions) || decide (p ∈ r.target_positions)

/-- `ClueRelationship.is_source`. -/
def ClueRelationship.is_source (r : ClueRelationship) (p : Pos) : Bool :=
  decide (p ∈ r.source_positions)

/-- `ClueRelationship.is_target`. -/
def ClueRelationship.is_target (r : ClueRelationship) (p : Pos) : Bool :=
  decide (p ∈ r.target_positions)

/-- relationships.py `RelationshipManager`.  The Python field
`position_to_relationships` is a derived index maintained by
`add_relationship`; it is modelled by the function
`get_relationships_for_position` below, which reproduces exactly the list
the index holds for a position (one copy of a relationship per occurrence
of the position in `source_positions ++ target_positions`, in insertion
order). -/
structure RelationshipManager where
  relationships : List ClueRelationship
  difficulty_level : String := "challenging"
deriving DecidableEq, Repr

/-- `RelationshipManager.get_relationships_for_position`: the content of
`position_to_relationships.get(pos, [])` after all `add_relationship`
calls, in order. -/
def RelationshipManager.get_relationships_for_position
    (m : RelationshipManager) (pos : Pos) : List ClueRelationship :=
  m.relationships.flatMap fun r =>
    List.replicate ((r.source_positions ++ r.target_positions).countP
      (fun q => decide (q = pos))) r

/-- `RelationshipManager.get_requires_relationships`. -/
def RelationshipManager.get_requires_relationships
    (m : RelationshipManager) (pos : Pos) : List ClueRelationship :=
  (m.get_relationships_for_position pos).filter fun r =>
    decide (r.relation_type = RelationType.REQUIRES) && r.is_source pos

/-- `RelationshipManager.get_enabled_by_relationships`. -/
def RelationshipManager.get_enabled_by_relationships
    (m : RelationshipManager) (pos : Pos) : List ClueRelationship :=
  (m.get_relationships_for_position pos).filter fun r =>
    decide (r.relation_type = RelationType.ENABLES) && r.is_target pos

/-- `RelationshipManager.can_reveal_position`.  The three sequential
early-return checks of the source become a conjunction of the three
corresponding tests. -/
def RelationshipManager.can_reveal_position
    (m : RelationshipManager) (pos : Pos) (solved_positions : Finset Pos) : Bool :=
  -- REQUIRES relationships: all required positions (sources minus self) solved
  ((m.get_requires_relationships pos).all fun r =>
    (r.source_positions.filter (fun q => !decide (q = pos))).all
      (fun q => decide (q ∈ solved_positions))) &&
  -- ENABLES relationships: if any, at least one enabling source solved
  (let enabled_by_rels := m.get_enabled_by_relationships pos
   enabled_by_rels.isEmpty ||
     enabled_by_rels.any fun r =>
       r.source_positions.any fun src => decide (src ∈ solved_positions)) &&
  -- COMPLEMENTS relationships: each needs at least one other position solved
  (((m.get_relationships_for_position pos).filter fun r =>
      decide (r.relation_type = RelationType.COMPLEMENTS)).all fun r =>
    (r.source_positions ++ r.target_positions).any fun q =>
      decide (q ≠ pos) && decide (q ∈ solved_positions))

/-- relationships.py `RelationshipManager._get_revelation_priority`:
`priority_map[relation_type] * strength`. -/
def RelationshipManager.get_revelation_priority (r : ClueRelationship) : ℚ :=
  (match r.relation_type with
   | RelationType.ENABLES => 1
   | RelationType.HINTS_AT => 4/5
   | RelationType.COMPLEMENTS => 3/5
   | RelationType.REQUIRES => 2/5
   | RelationType.CONTRASTS => 1/2
   | RelationType.CHAINS_TO => 9/10) * r.strength

/-- Stable insertion (descending by first component): mirrors Python
`list.sort(key=lambda x: x[0], reverse=True)`, which is a stable sort. -/
def insertDesc (x : ℚ × Pos) : List (ℚ × Pos) → List (ℚ × Pos)
  | [] => [x]
  | y :: ys => if y.1 ≤ x.1 then x :: y :: ys else y :: insertDesc x ys

/-- Stable descending sort by the first component. -/
def sortDesc : List (ℚ × Pos) → List (ℚ × Pos)
  | [] => []
  | x :: xs => insertDesc x (sortDesc xs)

/-- `RelationshipManager.get_newly_revealed_positions`:
`max_reveals_per_solve = 2`; candidates are (priority, target) pairs for
relationships with the just-solved position as a source, restricted to
unsolved targets; they are sorted by priority descending (stably), the
first `2 * 2` are scanned, and of those the first at most 2 passing
`can_reveal_position` are returned.  (The third tuple component `rel` of
the source is never used after sorting and is dropped.) -/
def RelationshipManager.get_newly_revealed_positions
    (m : RelationshipManager) (just_solved_pos : Pos)
    (all_solved_positions : Finset Pos) : List Pos :=
  let related := m.get_relationships_for_position just_solved_pos
  let candidates := related.flatMap fun r =>
    if r.is_source just_solved_pos then
      (r.target_positions.filter fun t => !decide (t ∈ all_solved_positions)).map
        fun t => (RelationshipManager.get_revelation_priority r, t)
    else []
  let limited := (sortDesc candidates).take (2 * 2)
  limited.foldl
    (fun newly c =>
      if 2 ≤ newly.length then newly
      else if m.can_reveal_position c.2 all_solved_positions then newly ++ [c.2]
      else newly)
    ([] : List Pos)

/-! ### board.py: cells and the game board -/

/-- One entry of `board_data['items']` (with the `.get` defaults for
`references` and `difficulty` already applied).  The `position` dict
becomes the pair (row, col). -/
structure Item where
  answer : String
  clue : String
  references : List String
  difficulty : Int
  row : Int
  col : Int
deriving DecidableEq, Repr

/-- The `board_data` dict passed to `GameBoard.__init__`. -/
structure BoardData where
  category : String
  grid_size : Nat
  items : List Item
deriving DecidableEq, Repr

/-- board.py `Cell` dataclass.  The `position` dict is modelled as the
pair `(row, col)`. -/
structure Cell where
  answer : String
  clue : String
  references : List String
  difficulty : Int
  position : Pos
  solved : Bool := false
  revealed : Bool := false
  relationship_description : String := ""
deriving DecidableEq, Repr

/-- CPython dict assignment `d[k] = v`: overwrite in place when the key is
present (keeping its original insertion position), append otherwise. -/
def dictInsert (k : Pos) (v : Cell) (l : List (Pos × Cell)) : List (Pos × Cell) :=
  if l.any (fun e => decide (e.1 = k)) then
    l.map fun e => if e.1 = k then (k, v) else e
  else l ++ [(k, v)]

/-- Python `f"({p[0]+1},{p[1]+1})"`. -/
def posStr (p : Pos) : String :=
  "(" ++ toString (p.1 + 1) ++ "," ++ toString (p.2 + 1) ++ ")"

/-- `RelationshipManager.generate_relationship_description`. -/
def RelationshipManager.generate_relationship_description
    (m : RelationshipManager) (pos : Pos) : String :=
  let relationships := m.get_relationships_for_position pos
  if relationships.isEmpty then "Independent clue"
  else
    let descriptions := relationships.flatMap fun r =>
      (if r.is_source pos then
        let tstr := String.intercalate ", " (r.target_positions.map posStr)
        match r.relation_type with
        | RelationType.REQUIRES => ["Requires " ++ tstr]
        | RelationType.ENABLES => ["Enables " ++ tstr]
        | RelationType.HINTS_AT => ["Hints at " ++ tstr]
        | _ => []
       else []) ++
      (if r.is_target pos then
        let sstr := String.intercalate ", " (r.source_positions.map posStr)
        match r.relation_type with
        | RelationType.REQUIRES => ["Required by " ++ sstr]
        | RelationType.ENABLES => ["Enabled by " ++ sstr]
        | RelationType.HINTS_AT => ["Hinted by " ++ sstr]
        | _ => []
       else [])
    if descriptions.isEmpty then "Complex relationships"
    else String.intercalate " | " descriptions

/-- board.py `GameBoard`.  `cells` is the insertion-ordered dict
`self.cells`. -/
structure GameBoard where
  category : String
  grid_size : Nat
  cells : List (Pos × Cell)
  solved_count : Nat
  total_cells : Nat
  starter_revealed : Bool
  relationship_manager : Option RelationshipManager
deriving DecidableEq, Repr

/-- The cell-initialisation loop of `GameBoard.__init__`. -/
def initCells (m : Option RelationshipManager) (items : List Item) :
    List (Pos × Cell) :=
  items.foldl
    (fun acc item =>
      let pos : Pos := (item.row, item.col)
      dictInsert pos
        { answer := item.answer
          clue := item.clue
          references := item.references
          difficulty := item.difficulty
          position := pos
          solved := false
          revealed := false
          relationship_description :=
            match m with
            | some mgr => mgr.generate_relationship_description pos
            | none => "" }
        acc)
    []

/-- Reveal (set `revealed := True` on) the first entry satisfying the
predicate; models a Python loop that mutates the first matching cell and
breaks. -/
def revealFirstMatching (p : Pos × Cell → Bool) :
    List (Pos × Cell) → List (Pos × Cell)
  | [] => []
  | e :: es =>
    if p e then (e.1, { e.2 with revealed := true }) :: es
    else e :: revealFirstMatching p es

/-- `GameBoard._simple_starter_reveal`: among difficulty-1 cells, reveal
the one with the fewest references (Python `min` returns the first
minimiser). -/
def GameBoard.simple_starter_reveal (b : GameBoard) : GameBoard :=
  let starter_cells := (b.cells.map Prod.snd).filter
    fun c => decide (c.difficulty = 1)
  match starter_cells with
  | [] => b
  | c0 :: rest =>
    let minRef := rest.foldl
      (fun acc c =>
        if c.references.length < acc then c.references.length else acc)
      c0.references.length
    { b with
      cells := revealFirstMatching
        (fun e => decide (e.2.difficulty = 1) &&
          decide (e.2.references.length = minRef)) b.cells }

/-- `GameBoard._reveal_starter_clues`.  With a relationship manager the
loop reveals at most `min(2, total_cells // 3)` cells that have
difficulty 1, pass `can_reveal_position(pos, ∅)` and have no references,
in dict order; if that reveals nothing it falls back to
`_simple_starter_reveal`. -/
def GameBoard.reveal_starter_clues (b : GameBoard) : GameBoard :=
  match b.relationship_manager with
  | some m =>
    let max_starters := min 2 (b.total_cells / 3)
    let folded := b.cells.foldl
      (fun (acc : List (Pos × Cell) × Nat) e =>
        if max_starters ≤ acc.2 then (acc.1 ++ [e], acc.2)
        else if decide (e.2.difficulty = 1) &&
            m.can_reveal_position e.1 (∅ : Finset Pos) &&
            decide (e.2.references.length = 0) then
          (acc.1 ++ [(e.1, { e.2 with revealed := true })], acc.2 + 1)
        else (acc.1 ++ [e], acc.2))
      ([], 0)
    let b2 := { b with cells := folded.1 }
    let b3 := if folded.2 = 0 then b2.simple_starter_reveal else b2
    { b3 with starter_revealed := true }
  | none =>
    { b.simple_starter_reveal with starter_revealed := true }

/-- `GameBoard.__init__`. -/
def GameBoard.mk_board (board_data : BoardData)
    (relationship_manager : Option RelationshipManager) : GameBoard :=
  GameBoard.reveal_starter_clues
    { category := board_data.category
      grid_size := board_data.grid_size
      cells := initCells relationship_manager board_data.items
      solved_count := 0
      total_cells := board_data.grid_size * board_data.grid_size
      starter_revealed := false
      relationship_manager := relationship_manager }

/-- `GameBoard.get_cell`. -/
def GameBoard.get_cell (b : GameBoard) (row col : Int) : Option Cell :=
  (b.cells.find? fun e => decide (e.1 = ((row, col) : Pos))).map Prod.snd

/-- Python `str.lower()` (ASCII behaviour). -/
def pyLower (s : String) : String := String.mk (s.data.map Char.toLower)

/-- The whitespace characters removed by Python `str.strip()`. -/
def isPySpace (c : Char) : Bool :=
  decide (c ∈ ([' ', '\t', '\n', Char.ofNat 11, Char.ofNat 12, '\r'] : List Char))

/-- Python `str.strip()`. -/
def pyStrip (s : String) : String :=
  String.mk (((s.data.dropWhile isPySpace).reverse.dropWhile isPySpace).reverse)

/-- Set `solved := True` on the dict entry at key `p`. -/
def setSolvedAt (p : Pos) (l : List (Pos × Cell)) : List (Pos × Cell) :=
  l.map fun e => if e.1 = p then (e.1, { e.2 with solved := true }) else e

/-- Set `revealed := True` on the dict entry at key `p`. -/
def setRevealedAt (p : Pos) (l : List (Pos × Cell)) : List (Pos × Cell) :=
  l.map fun e => if e.1 = p then (e.1, { e.2 with revealed := true }) else e

/-- `GameBoard._simple_mark_solved` (the no-relationship-manager cascade):
reveal up to 2 hidden cells that reference the solved answer with fuzzy
similarity ≥ 85; if none was revealed, reveal the first hidden
difficulty-1 cell with at most one reference. -/
def GameBoard.simple_mark_solved (ratio : String → String → Nat)
    (b : GameBoard) (cell : Cell) : GameBoard :=
  let solved_answer := pyLower cell.answer
  let folded := b.cells.foldl
    (fun (acc : List (Pos × Cell) × Nat) e =>
      if !e.2.revealed && !e.2.solved && acc.2 < 2 &&
          e.2.references.any (fun ref => 85 ≤ ratio (pyLower ref) solved_answer) then
        (acc.1 ++ [(e.1, { e.2 with revealed := true })], acc.2 + 1)
      else (acc.1 ++ [e], acc.2))
    ([], 0)
  if folded.2 = 0 then
    { b with
      cells := revealFirstMatching
        (fun e => !e.2.revealed && !e.2.solved &&
          decide (e.2.difficulty = 1) && decide (e.2.references.length ≤ 1))
        folded.1 }
  else { b with cells := folded.1 }

/-- `GameBoard._mark_solved`: set the cell solved, bump `solved_count`,
then reveal the cascade.  With a relationship manager, each returned
position is revealed only if it is a key of `self.cells`. -/
def GameBoard.mark_solved (ratio : String → String → Nat)
    (b : GameBoard) (cell : Cell) : GameBoard :=
  let solved_pos := cell.position
  let cells1 := setSolvedAt solved_pos b.cells
  let b1 := { b with cells := cells1, solved_count := b.solved_count + 1 }
  match b.relationship_manager with
  | some m =>
    let all_solved_positions : Finset Pos :=
      ((cells1.filter fun e => e.2.solved).map fun e => e.2.position).toFinset
    let newly := m.get_newly_revealed_positions solved_pos all_solved_positions
    { b1 with
      cells := newly.foldl
        (fun cs p =>
          if cs.any (fun e => decide (e.1 = p)) then setRevealedAt p cs else cs)
        cells1 }
  | none => b1.simple_mark_solved ratio cell

/-- `GameBoard.check_answer`.  `ratio` is the uninterpreted
`fuzz.ratio`. -/
def GameBoard.check_answer (ratio : String → String → Nat) (b : GameBoard)
    (guess : String) (row col : Int) : Bool × GameBoard :=
  match b.get_cell row col with
  | none => (false, b)
  | some cell =>
    if !cell.revealed then (false, b)
    else if 85 ≤ ratio (pyStrip (pyLower guess)) (pyLower cell.answer) then
      (true, b.mark_solved ratio cell)
    else (false, b)

/-- `GameBoard.is_complete`. -/
def GameBoard.is_complete (b : GameBoard) : Bool :=
  decide (b.solved_count = b.total_cells)

/-- Sort key of `get_unrevealed_cells`: `(difficulty, references_count)`,
compared lexicographically, strictly. -/
def unrevKeyLt (a b : Pos × Cell) : Bool :=
  decide (a.2.difficulty < b.2.difficulty) ||
    (decide (a.2.difficulty = b.2.difficulty) &&
      decide (a.2.references.length < b.2.references.length))

/-- Stable insertion (ascending by `unrevKeyLt`): mirrors Python
`list.sort(key=...)`, a stable sort. -/
def insertAsc (x : Pos × Cell) : List (Pos × Cell) → List (Pos × Cell)
  | [] => [x]
  | y :: ys => if unrevKeyLt y x then y :: insertAsc x ys else x :: y :: ys

/-- Stable ascending sort by `(difficulty, references_count)`. -/
def sortAsc : List (Pos × Cell) → List (Pos × Cell)
  | [] => []
  | x :: xs => insertAsc x (sortAsc xs)

/-- `GameBoard.get_unrevealed_cells`: hidden (unrevealed, unsolved) cells
in dict order, stably sorted by (difficulty, reference count). -/
def GameBoard.get_unrevealed_cells (b : GameBoard) : List (Pos × Cell) :=
  sortAsc (b.cells.filter fun e => !e.2.revealed && !e.2.solved)

/-- First emergency-revelation test: completely independent clue (no
references) of difficulty at most 2. -/
def emergPred1 (e : Pos × Cell) : Bool :=
  decide (e.2.references.length = 0) && decide (e.2.difficulty ≤ 2)

/-- Second emergency-revelation test: low-dependency clue (at most one
reference) of difficulty at most 3. -/
def emergPred2 (e : Pos × Cell) : Bool :=
  decide (e.2.references.length ≤ 1) && decide (e.2.difficulty ≤ 3)

/-- `GameBoard.emergency_reveal_clue`: the three candidate loops (each a
first-match search over the sorted hidden cells, breaking when found)
become `find?` calls, the last resort being `unrevealed[0]`. -/
def GameBoard.emergency_reveal_clue (b : GameBoard) : Bool × GameBoard :=
  let unrevealed := b.get_unrevealed_cells
  if unrevealed.isEmpty then (false, b)
  else
    let best_candidate : Option (Pos × Cell) :=
      match unrevealed.find? emergPred1 with
      | some e => some e
      | none =>
        match unrevealed.find? emergPred2 with
        | some e => some e
        | none => unrevealed.head?
    match best_candidate with
    | some e => (true, { b with cells := setRevealedAt e.1 b.cells })
    | none => (false, b)

/-! ### board.py: reachability analysis -/

/-- The result dict of `check_reachability` when a relationship manager is
present.  `unreachable_positions` is materialised by Python as
`list(set)` in unspecified set order; it is modelled as the `Finset`
itself.  The percentage (a Python float) is modelled in `ℚ`. -/
structure ReachResult where
  all_reachable : Bool
  reachable_count : Nat
  total_count : Nat
  unreachable_positions : Finset Pos
  reachability_percentage : ℚ
deriving DecidableEq

/-- Return value of `check_reachability`: either the no-manager
"assuming reachable" dict or the full analysis dict. -/
inductive ReachReport where
  | assumed : ReachReport
  | report : ReachResult → ReachReport
deriving DecidableEq

/-- One pass of the `check_reachability` simulation loop: collect
`get_newly_revealed_positions(pos, reachable)` for every reachable `pos`
and add them all to the reachable set. -/
def reachStep (m : RelationshipManager) (reachable : Finset Pos) : Finset Pos :=
  reachable ∪ reachable.biUnion
    (fun pos => (m.get_newly_revealed_positions pos reachable).toFinset)

/-- The bounded simulation loop of `check_reachability`, instrumented with
the number of passes executed.  A pass that adds nothing (detected, as in
the source, by comparing set sizes) breaks out of the loop. -/
def reachAux (m : RelationshipManager) :
    Nat → Finset Pos → Finset Pos × Nat
  | 0, reachable => (reachable, 0)
  | Nat.succ fuel, reachable =>
    let r2 := reachStep m reachable
    if r2.card = reachable.card then (r2, 1)
    else
      let rest := reachAux m fuel r2
      (rest.1, rest.2 + 1)

/-- The initially reachable set of `check_reachability`: positions of
currently revealed cells. -/
def GameBoard.initial_reachable (b : GameBoard) : Finset Pos :=
  ((b.cells.filter fun e => e.2.revealed).map Prod.fst).toFinset

/-- `GameBoard.check_reachability` with `max_iterations = total_cells * 2`. -/
def GameBoard.check_reachability (b : GameBoard) : ReachReport :=
  match b.relationship_manager with
  | none => ReachReport.assumed
  | some m =>
    let reachable := (reachAux m (b.total_cells * 2) b.initial_reachable).1
    let all_positions : Finset Pos := (b.cells.map Prod.fst).toFinset
    let unreachable_positions := all_positions \ reachable
    ReachReport.report
      { all_reachable := decide (unreachable_positions.card = 0)
        reachable_count := reachable.card
        total_count := all_positions.card
        unreachable_positions := unreachable_positions
        reachability_percentage :=
          ((reachable.card : ℚ) / (all_positions.card : ℚ)) * 100 }

/-- State-passing form of `check_reachability`: the method reads the board
but contains no assignment to any board field, so the translation returns
the board unchanged alongside the report. -/
def GameBoard.check_reachabilityS (b : GameBoard) : ReachReport × GameBoard :=
  (b.check_reachability, b)

/-! ### engine operations as a transition system -/

/-- The engine operations of the claims: an answer check, an emergency
revelation, or a reachability analysis. -/
inductive GameOp where
  | guess : String → Int → Int → GameOp
  | emergency : GameOp
  | reachability : GameOp

/-- The board after one engine operation. -/
def stepOp (ratio : String → String → Nat) (b : GameBoard) : GameOp → GameBoard
  | GameOp.guess g row col => (b.check_answer ratio g row col).2
  | GameOp.emergency => b.emergency_reveal_clue.2
  | GameOp.reachability => b.check_reachabilityS.2

/-- The board after a sequence of engine operations. -/
def runOps (ratio : String → String → Nat) (b : GameBoard)
    (ops : List GameOp) : GameBoard :=
  ops.foldl (stepOp ratio) b

/-! ### Spec-level predicates about boards -/

/-- The dict `self.cells` has no duplicated keys (always true of a CPython
dict; needed here because the dict is modelled as an association list). -/
def NodupKeys (b : GameBoard) : Prop := (b.cells.map Prod.fst).Nodup

/-- Every cell's `position` field agrees with its dict key (established by
`GameBoard.__init__`, which uses the same pair for both). -/
def PosConsistent (b : GameBoard) : Prop := ∀ e ∈ b.cells, e.2.position = e.1

/-- The safety invariant: every solved cell is revealed. -/
def FlagsOK (b : GameBoard) : Prop :=
  ∀ e ∈ b.cells, e.2.solved = true → e.2.revealed = true

/-- One cell entry evolves monotonically: same key, same position, and
neither `revealed` nor `solved` ever drops from `True` back to `False`. -/
def entryMono (e e2 : Pos × Cell) : Prop :=
  e2.1 = e.1 ∧ e2.2.position = e.2.position ∧
  (e.2.revealed = true → e2.2.revealed = true) ∧
  (e.2.solved = true → e2.2.solved = true)

/-- A board evolves monotonically, entry by entry. -/
def boardMono (b b2 : GameBoard) : Prop :=
  List.Forall₂ entryMono b.cells b2.cells

/-- An entry either stays as it is or merely has `revealed` set to
`True`. -/
def revealOnly (e e2 : Pos × Cell) : Prop :=
  e2 = e ∨ e2 = (e.1, { e.2 with revealed := true })

/-- An entry either stays as it is or merely has `solved` set to
`True`. -/
def solvedOnly (e e2 : Pos × Cell) : Prop :=
  e2 = e ∨ e2 = (e.1, { e.2 with solved := true })

/-! ### Concrete fixtures used by counterexamples and witnesses -/

/-- A concrete stand-in for `fuzz.ratio` used only to instantiate
hypotheses of theorems that are universally quantified over `ratio`:
100 for equal strings, 0 otherwise (the real `fuzz.ratio` also returns
100 on equal strings). -/
def eqRatio (a b : String) : Nat := if a = b then 100 else 0

/-- Shorthand for a references-free item. -/
def mkItem (r c d : Int) (a : String) : Item :=
  { answer := a, clue := "clue", references := [], difficulty := d, row := r, col := c }

/-- Fixture for C2: one ENABLES relationship with three targets. -/
def rmC2 : RelationshipManager :=
  { relationships := [
      { relation_type := RelationType.ENABLES
        source_positions := [((0 : Int), (0 : Int))]
        target_positions := [((0 : Int), (1 : Int)), ((0 : Int), (2 : Int)),
          ((0 : Int), (3 : Int))]
        strength := 1
        description := "enables" }] }

/-- Fixture for C4: one REQUIRES relationship, sources (0,0) and (0,1),
target (0,2). -/
def rmC4 : RelationshipManager :=
  { relationships := [
      { relation_type := RelationType.REQUIRES
        source_positions := [((0 : Int), (0 : Int)), ((0 : Int), (1 : Int))]
        target_positions := [((0 : Int), (2 : Int))]
        strength := 1
        description := "requires" }] }

/-- Fixture for C4: a 3-cell board carrying `rmC4`. -/
def boardC4 : GameBoard :=
  GameBoard.mk_board
    { category := "history", grid_size := 3
      items := [mkItem 0 0 1 "alpha", mkItem 0 1 1 "beta", mkItem 0 2 1 "gamma"] }
    (some rmC4)

/-- An empty relationship graph. -/
def rmEmpty : RelationshipManager := { relationships := [] }

/-- Fixture for C3: a 2-by-2 board, all four cells of difficulty 1 with no
references. -/
def dataC3 : BoardData :=
  { category := "history", grid_size := 2
    items := [mkItem 0 0 1 "alpha", mkItem 0 1 1 "beta",
      mkItem 1 0 1 "gamma", mkItem 1 1 1 "delta"] }

/-- The C3 board: `dataC3` with an (empty) relationship graph present. -/
def boardC3 : GameBoard := GameBoard.mk_board dataC3 (some rmEmpty)

/-- Fixture for C1: a single-cell board whose answer is "paris", no
relationship graph. -/
def boardC1 : GameBoard :=
  GameBoard.mk_board
    { category := "history", grid_size := 1, items := [mkItem 0 0 1 "paris"] }
    none

/-! ### Helper lemmas: entry relations -/

theorem entryMono_refl (e : Pos × Cell) : entryMono e e :=
  ⟨rfl, rfl, id, id⟩

theorem entryMono_trans {e1 e2 e3 : Pos × Cell}
    (h12 : entryMono e1 e2) (h23 : entryMono e2 e3) : entryMono e1 e3 :=
  ⟨h23.1.trans h12.1, h23.2.1.trans h12.2.1,
    fun h => h23.2.2.1 (h12.2.2.1 h), fun h => h23.2.2.2 (h12.2.2.2 h)⟩

theorem revealOnly_entryMono {e e2 : Pos × Cell} (h : revealOnly e e2) :
    entryMono e e2 := by
  rcases h with h | h <;> subst h
  · exact entryMono_refl _
  · exact ⟨rfl, rfl, fun _ => rfl, fun h => h⟩

theorem solvedOnly_entryMono {e e2 : Pos × Cell} (h : solvedOnly e e2) :
    entryMono e e2 := by
  rcases h with h | h <;> subst h
  · exact entryMono_refl _
  · exact ⟨rfl, rfl, fun h => h, fun _ => rfl⟩

/-! ### Helper lemmas: Forall₂ machinery -/

theorem forall2_refl {R : Pos × Cell → Pos × Cell → Prop}
    (h : ∀ e, R e e) (l : List (Pos × Cell)) : List.Forall₂ R l l :=
  List.forall₂_same.mpr fun e _ => h e

theorem forall2_trans {R : Pos × Cell → Pos × Cell → Prop}
    (ht : ∀ a b c, R a b → R b c → R a c) :
    ∀ {l1 l2 l3 : List (Pos × Cell)},
      List.Forall₂ R l1 l2 → List.Forall₂ R l2 l3 → List.Forall₂ R l1 l3 := by
  intro l1 l2 l3 h12 h23
  induction h12 generalizing l3 with
  | nil => cases h23; exact List.Forall₂.nil
  | cons hab htail ih =>
    cases h23 with
    | cons hbc htail2 => exact List.Forall₂.cons (ht _ _ _ hab hbc) (ih htail2)

theorem forall2_imp {R S : Pos × Cell → Pos × Cell → Prop}
    (h : ∀ a b, R a b → S a b) {l1 l2 : List (Pos × Cell)}
    (hf : List.Forall₂ R l1 l2) : List.Forall₂ S l1 l2 := by
  induction hf with
  | nil => exact List.Forall₂.nil
  | cons hab _ ih => exact List.Forall₂.cons (h _ _ hab) ih

theorem forall2_mem_right {R : Pos × Cell → Pos × Cell → Prop}
    {l1 l2 : List (Pos × Cell)} (hf : List.Forall₂ R l1 l2) :
    ∀ e2 ∈ l2, ∃ e ∈ l1, R e e2 := by
  induction hf with
  | nil => intro e2 h; cases h
  | cons hab _ ih =>
    intro e2 h2
    rcases List.mem_cons.mp h2 with h2 | h2
    · exact ⟨_, List.mem_cons_self _ _, h2 ▸ hab⟩
    · rcases ih e2 h2 with ⟨e, he, hr⟩
      exact ⟨e, List.mem_cons_of_mem _ he, hr⟩

theorem forall2_mem_left {R : Pos × Cell → Pos × Cell → Prop}
    {l1 l2 : List (Pos × Cell)} (hf : List.Forall₂ R l1 l2) :
    ∀ e ∈ l1, ∃ e2 ∈ l2, R e e2 := by
  induction hf with
  | nil => intro e h; cases h
  | cons hab _ ih =>
    intro e he
    rcases List.mem_cons.mp he with he | he
    · exact ⟨_, List.mem_cons_self _ _, he ▸ hab⟩
    · rcases ih e he with ⟨e2, he2, hr⟩
      exact ⟨e2, List.mem_cons_of_mem _ he2, hr⟩

theorem forall2_keys {R : Pos × Cell → Pos × Cell → Prop}
    (hk : ∀ e e2, R e e2 → e2.1 = e.1) :
    ∀ {l1 l2 : List (Pos × Cell)}, List.Forall₂ R l1 l2 →
      l2.map Prod.fst = l1.map Prod.fst := by
  intro l1 l2 hf
  induction hf with
  | nil => rfl
  | cons hab _ ih => simp [ih, hk _ _ hab]

theorem forall2_map_self {R : Pos × Cell → Pos × Cell → Prop}
    (f : Pos × Cell → Pos × Cell) (hf : ∀ e, R e (f e)) :
    ∀ l : List (Pos × Cell), List.Forall₂ R l (l.map f)
  | [] => List.Forall₂.nil
  | e :: es => List.Forall₂.cons (hf e) (forall2_map_self f hf es)

/-! ### Helper lemmas: the cell-update primitives -/

theorem setRevealedAt_rel (p : Pos) (l : List (Pos × Cell)) :
    List.Forall₂ revealOnly l (setRevealedAt p l) := by
  apply forall2_map_self
  intro e
  by_cases h : e.1 = p <;> simp [revealOnly, h]

theorem setSolvedAt_rel (p : Pos) (l : List (Pos × Cell)) :
    List.Forall₂ solvedOnly l (setSolvedAt p l) := by
  apply forall2_map_self
  intro e
  by_cases h : e.1 = p <;> simp [solvedOnly, h]

theorem revealFirstMatching_rel (p : Pos × Cell → Bool) :
    ∀ l : List (Pos × Cell), List.Forall₂ revealOnly l (revealFirstMatching p l) := by
  intro l
  induction l with
  | nil => exact List.Forall₂.nil
  | cons e es ih =>
    unfold revealFirstMatching
    by_cases h : p e
    · rw [if_pos h]
      exact List.Forall₂.cons (Or.inr rfl) (forall2_refl (fun x => Or.inl rfl) es)
    · rw [if_neg h]
      exact List.Forall₂.cons (Or.inl rfl) ih

/-- Generic description of the accumulate-append folds used by
`_simple_mark_solved` and `_reveal_starter_clues`: each step appends
exactly one transformed copy of the visited entry. -/
theorem foldl_append_rel {σ : Type} {R : Pos × Cell → Pos × Cell → Prop}
    (f : List (Pos × Cell) × σ → Pos × Cell → List (Pos × Cell) × σ)
    (hf : ∀ acc s e, ∃ e2 s2, f (acc, s) e = (acc ++ [e2], s2) ∧ R e e2) :
    ∀ (l acc : List (Pos × Cell)) (s : σ),
      ∃ rest s2, l.foldl f (acc, s) = (acc ++ rest, s2) ∧ List.Forall₂ R l rest := by
  intro l
  induction l with
  | nil => intro acc s; exact ⟨[], s, by simp, List.Forall₂.nil⟩
  | cons e es ih =>
    intro acc s
    rcases hf acc s e with ⟨e2, s2, heq, hr⟩
    rcases ih (acc ++ [e2]) s2 with ⟨rest, s3, heq2, hr2⟩
    refine ⟨e2 :: rest, s3, ?_, List.Forall₂.cons hr hr2⟩
    simp only [List.foldl_cons, heq, heq2, List.append_assoc, List.singleton_append]

/-- Uniqueness of association-list entries under key nodup. -/
theorem assoc_unique {l : List (Pos × Cell)}
    (hnd : (l.map Prod.fst).Nodup) {e e2 : Pos × Cell}
    (he : e ∈ l) (he2 : e2 ∈ l) (hk : e.1 = e2.1) : e = e2 := by
  induction l with
  | nil => cases he
  | cons a t ih =>
    simp only [List.map_cons, List.nodup_cons] at hnd
    rcases List.mem_cons.mp he with rfl | he <;>
      rcases List.mem_cons.mp he2 with h2 | he2
    · exact h2.symm
    · exact absurd (hk ▸ List.mem_map_of_mem Prod.fst he2) hnd.1
    · exact absurd (hk ▸ List.mem_map_of_mem Prod.fst he) (h2 ▸ hnd.1)
    · exact ih hnd.2 he he2

/-! ### Helper lemmas: the stable sorts are permutations -/

theorem insertDesc_perm (x : ℚ × Pos) :
    ∀ l : List (ℚ × Pos), (insertDesc x l).Perm (x :: l) := by
  intro l
  induction l with
  | nil => exact List.Perm.refl _
  | cons y ys ih =>
    unfold insertDesc
    by_cases h : y.1 ≤ x.1
    · rw [if_pos h]
    · rw [if_neg h]
      exact (ih.cons y).trans (List.Perm.swap x y ys)

theorem sortDesc_perm : ∀ l : List (ℚ × Pos), (sortDesc l).Perm l := by
  intro l
  induction l with
  | nil => exact List.Perm.refl _
  | cons x xs ih =>
    unfold sortDesc
    exact (insertDesc_perm x (sortDesc xs)).trans (ih.cons x)

theorem insertAsc_perm (x : Pos × Cell) :
    ∀ l : List (Pos × Cell), (insertAsc x l).Perm (x :: l) := by
  intro l
  induction l with
  | nil => exact List.Perm.refl _
  | cons y ys ih =>
    unfold insertAsc
    by_cases h : unrevKeyLt y x
    · rw [if_pos h]
      exact (ih.cons y).trans (List.Perm.swap x y ys)
    · rw [if_neg h]

theorem sortAsc_perm : ∀ l : List (Pos × Cell), (sortAsc l).Perm l := by
  intro l
  induction l with
  | nil => exact List.Perm.refl _
  | cons x xs ih =>
    unfold sortAsc
    exact (insertAsc_perm x (sortAsc xs)).trans (ih.cons x)

/-! ### Helper lemmas: flag preservation -/

theorem revealOnly_trans {e1 e2 e3 : Pos × Cell}
    (h12 : revealOnly e1 e2) (h23 : revealOnly e2 e3) : revealOnly e1 e3 := by
  rcases h12 with h12 | h12 <;> rcases h23 with h23 | h23 <;> subst h12 <;> subst h23
  · exact Or.inl rfl
  · exact Or.inr rfl
  · exact Or.inr rfl
  · exact Or.inr rfl

theorem listOK_of_revealOnly {l l2 : List (Pos × Cell)}
    (hf : List.Forall₂ revealOnly l l2)
    (h : ∀ e ∈ l, e.2.solved = true → e.2.revealed = true) :
    ∀ e2 ∈ l2, e2.2.solved = true → e2.2.revealed = true := by
  intro e2 he2 hs
  rcases forall2_mem_right hf e2 he2 with ⟨e, he, hr⟩
  rcases hr with hr | hr
  · exact hr ▸ h e he (hr ▸ hs)
  · subst hr; rfl

theorem listOK_setSolvedAt {l : List (Pos × Cell)} {p : Pos}
    (h : ∀ e ∈ l, e.2.solved = true → e.2.revealed = true)
    (hrev : ∀ e ∈ l, e.1 = p → e.2.revealed = true) :
    ∀ e2 ∈ setSolvedAt p l, e2.2.solved = true → e2.2.revealed = true := by
  intro e2 he2 hs
  rcases List.mem_map.mp he2 with ⟨e, he, heq⟩
  by_cases hk : e.1 = p
  · rw [if_pos hk] at heq
    subst heq
    exact hrev e he hk
  · rw [if_neg hk] at heq
    subst heq
    exact h e he hs

/-- The reveal-cascade fold of `_mark_solved` only sets `revealed`
flags. -/
theorem cascade_rel :
    ∀ (ps : List Pos) (cs : List (Pos × Cell)),
      List.Forall₂ revealOnly cs
        (ps.foldl
          (fun cs p =>
            if cs.any (fun e => decide (e.1 = p)) then setRevealedAt p cs else cs)
          cs) := by
  intro ps
  induction ps with
  | nil => intro cs; exact forall2_refl (fun e => Or.inl rfl) cs
  | cons p ps ih =>
    intro cs
    rw [List.foldl_cons]
    refine forall2_trans (R := revealOnly) (fun a b c hab hbc => revealOnly_trans hab hbc) ?_ (ih _)
    by_cases h : cs.any (fun e => decide (e.1 = p))
    · rw [if_pos h]; exact setRevealedAt_rel p cs
    · rw [if_neg h]; exact forall2_refl (fun e => Or.inl rfl) cs

/-- Unpacking a successful `get_cell`. -/
theorem get_cell_mem {b : GameBoard} {row col : Int} {cell : Cell}
    (h : b.get_cell row col = some cell) :
    ∃ e ∈ b.cells, e.1 = ((row, col) : Pos) ∧ e.2 = cell := by
  unfold GameBoard.get_cell at h
  rcases Option.map_eq_some'.mp h with ⟨e, hfind, hsnd⟩
  refine ⟨e, List.mem_of_find?_eq_some hfind, ?_, hsnd⟩
  have := List.find?_some hfind
  exact of_decide_eq_true this

/-- `_simple_mark_solved` only sets `revealed` flags. -/
theorem simple_mark_solved_rel (ratio : String → String → Nat)
    (b : GameBoard) (cell : Cell) :
    List.Forall₂ revealOnly b.cells (b.simple_mark_solved ratio cell).cells := by
  unfold GameBoard.simple_mark_solved
  dsimp only
  rcases foldl_append_rel (R := revealOnly)
      (fun (acc : List (Pos × Cell) × Nat) e =>
        if !e.2.revealed && !e.2.solved && acc.2 < 2 &&
            e.2.references.any
              (fun ref => 85 ≤ ratio (pyLower ref) (pyLower cell.answer)) then
          (acc.1 ++ [(e.1, { e.2 with revealed := true })], acc.2 + 1)
        else (acc.1 ++ [e], acc.2))
      (fun acc s e => by
        by_cases h : !e.2.revealed && !e.2.solved && s < 2 &&
            e.2.references.any
              (fun ref => 85 ≤ ratio (pyLower ref) (pyLower cell.answer))
        · exact ⟨(e.1, { e.2 with revealed := true }), s + 1, by simp [h], Or.inr rfl⟩
        · exact ⟨e, s, by simp [h], Or.inl rfl⟩)
      b.cells [] 0 with ⟨rest, s2, heq, hrel⟩
  rw [heq]
  simp only [List.nil_append]
  by_cases hz : s2 = 0
  · rw [if_pos hz]
    exact forall2_trans (R := revealOnly) (fun a b c hab hbc => revealOnly_trans hab hbc) hrel
      (revealFirstMatching_rel _ rest)
  · rw [if_neg hz]
    exact hrel

/-- `_mark_solved` changes cell entries monotonically: keys and positions
are kept, flags only go from `False` to `True`. -/
theorem mark_solved_rel (ratio : String → String → Nat)
    (b : GameBoard) (cell : Cell) :
    List.Forall₂ entryMono b.cells (b.mark_solved ratio cell).cells := by
  unfold GameBoard.mark_solved
  dsimp only
  cases hrm : b.relationship_manager with
  | some m =>
    dsimp only
    exact forall2_trans (R := entryMono)
      (fun a b c hab hbc => entryMono_trans hab hbc)
      (forall2_imp (fun a b h => solvedOnly_entryMono h) (setSolvedAt_rel _ _))
      (forall2_imp (fun a b h => revealOnly_entryMono h) (cascade_rel _ _))
  | none =>
    dsimp only
    have h2 := simple_mark_solved_rel ratio
      { category := b.category
        grid_size := b.grid_size
        cells := setSolvedAt cell.position b.cells
        solved_count := b.solved_count + 1
        total_cells := b.total_cells
        starter_revealed := b.starter_revealed
        relationship_manager := none } cell
    exact forall2_trans (R := entryMono)
      (fun a b c hab hbc => entryMono_trans hab hbc)
      (forall2_imp (fun a b h => solvedOnly_entryMono h) (setSolvedAt_rel _ _))
      (forall2_imp (fun a b h => revealOnly_entryMono h) h2)

/-- `_mark_solved` preserves the solved-implies-revealed invariant,
provided the cell being solved sits (by key) at a revealed entry. -/
theorem mark_solved_flags (ratio : String → String → Nat)
    (b : GameBoard) (cell : Cell)
    (hOK : ∀ e ∈ b.cells, e.2.solved = true → e.2.revealed = true)
    (hrev : ∀ e ∈ b.cells, e.1 = cell.position → e.2.revealed = true) :
    ∀ e2 ∈ (b.mark_solved ratio cell).cells,
      e2.2.solved = true → e2.2.revealed = true := by
  unfold GameBoard.mark_solved
  dsimp only
  cases hrm : b.relationship_manager with
  | some m =>
    dsimp only
    exact listOK_of_revealOnly (cascade_rel _ _) (listOK_setSolvedAt hOK hrev)
  | none =>
    dsimp only
    have h2 := simple_mark_solved_rel ratio
      { category := b.category
        grid_size := b.grid_size
        cells := setSolvedAt cell.position b.cells
        solved_count := b.solved_count + 1
        total_cells := b.total_cells
        starter_revealed := b.starter_revealed
        relationship_manager := none } cell
    exact listOK_of_revealOnly h2 (listOK_setSolvedAt hOK hrev)

/-- `emergency_reveal_clue` only sets `revealed` flags. -/
theorem emergency_rel (b : GameBoard) :
    List.Forall₂ revealOnly b.cells b.emergency_reveal_clue.2.cells := by
  unfold GameBoard.emergency_reveal_clue
  dsimp only
  split
  · exact forall2_refl (fun e => Or.inl rfl) b.cells
  · split
    · exact setRevealedAt_rel _ _
    · exact forall2_refl (fun e => Or.inl rfl) b.cells

/-! ### C7: bounded termination of the reachability loop -/

theorem subset_reachStep (m : RelationshipManager) (R : Finset Pos) :
    R ⊆ reachStep m R :=
  Finset.subset_union_left

theorem reachAux_bound (m : RelationshipManager) :
    ∀ (fuel : Nat) (R : Finset Pos),
      (reachAux m fuel R).2 ≤ fuel ∧
      (reachStep m (reachAux m fuel R).1 = (reachAux m fuel R).1 ∨
        (reachAux m fuel R).2 = fuel) := by
  intro fuel
  induction fuel with
  | zero => intro R; exact ⟨Nat.le_refl 0, Or.inr rfl⟩
  | succ fuel ih =>
    intro R
    unfold reachAux
    dsimp only
    by_cases h : (reachStep m R).card = R.card
    · rw [if_pos h]
      have hsub : R = reachStep m R :=
        Finset.eq_of_subset_of_card_le (subset_reachStep m R) (Nat.le_of_eq h)
      refine ⟨Nat.succ_le_succ (Nat.zero_le fuel), Or.inl ?_⟩
      show reachStep m (reachStep m R) = reachStep m R
      rw [← hsub]
      exact hsub.symm
    · rw [if_neg h]
      rcases ih (reachStep m R) with ⟨hle, hfix⟩
      constructor
      · exact Nat.succ_le_succ hle
      · rcases hfix with hfix | hfix
        · exact Or.inl hfix
        · exact Or.inr (by rw [hfix])

/-- Claim C7: `check_reachability` always terminates: its simulation
loop (modelled by `reachAux` with fuel `total_cells * 2`, exactly the
source's `max_iterations`) executes at most `2 * N²` passes, and either
it stopped because a full pass added no new reachable position (the
returned set is a fixed point of `reachStep`) or it hit the iteration
cap. -/
theorem check_reachability_terminates (b : GameBoard) (m : RelationshipManager) :
    (reachAux m (b.total_cells * 2) b.initial_reachable).2 ≤ b.total_cells * 2 ∧
    (reachStep m (reachAux m (b.total_cells * 2) b.initial_reachable).1 =
        (reachAux m (b.total_cells * 2) b.initial_reachable).1 ∨
      (reachAux m (b.total_cells * 2) b.initial_reachable).2 = b.total_cells * 2) :=
  reachAux_bound m (b.total_cells * 2) b.initial_reachable

/-! ### C8: purity and idempotence of check_reachability -/

/-- Claim C8: `check_reachability` does not mutate the board (its
state-passing translation returns the board unchanged, the method having
no assignment to board state), and a second call on the resulting board
yields the identical report. -/
theorem check_reachability_idempotent (ratio : String → String → Nat)
    (b : GameBoard) :
    stepOp ratio b GameOp.reachability = b ∧
    b.check_reachabilityS.2 = b ∧
    b.check_reachabilityS.2.check_reachabilityS.1 = b.check_reachabilityS.1 :=
  ⟨rfl, rfl, rfl⟩

/-! ### C9: the reveal cascade cannot create or destroy cells -/

/-- Claim C9: `_mark_solved` preserves the key list of the cell dict
exactly — positions mentioned by the relationship graph that are not
cells of the board are skipped (the `if pos in self.cells` guard), no
phantom cell is created and no lookup failure occurs, for every
relationship graph. -/
theorem mark_solved_preserves_keys (ratio : String → String → Nat)
    (b : GameBoard) (cell : Cell) :
    (b.mark_solved ratio cell).cells.map Prod.fst = b.cells.map Prod.fst :=
  forall2_keys (fun _ _ h => h.1) (mark_solved_rel ratio b cell)

/-! ### C5: the safety invariant and flag monotonicity -/

/-- `check_answer` changes cell entries monotonically. -/
theorem check_answer_rel (ratio : String → String → Nat) (b : GameBoard)
    (guess : String) (row col : Int) :
    List.Forall₂ entryMono b.cells (b.check_answer ratio guess row col).2.cells := by
  unfold GameBoard.check_answer
  cases hgc : b.get_cell row col with
  | none => exact forall2_refl entryMono_refl b.cells
  | some cell =>
    dsimp only
    split
    · exact forall2_refl entryMono_refl b.cells
    · split
      · exact mark_solved_rel ratio b cell
      · exact forall2_refl entryMono_refl b.cells

/-- `check_answer` preserves the solved-implies-revealed invariant. -/
theorem check_answer_flags (ratio : String → String → Nat) (b : GameBoard)
    (guess : String) (row col : Int)
    (hnd : NodupKeys b) (hpc : PosConsistent b) (hok : FlagsOK b) :
    FlagsOK (b.check_answer ratio guess row col).2 := by
  unfold GameBoard.check_answer
  cases hgc : b.get_cell row col with
  | none => exact hok
  | some cell =>
    dsimp only
    by_cases hrev : cell.revealed
    · rw [hrev]
      simp only [Bool.not_true, Bool.false_eq_true, if_false]
      split
      · rcases get_cell_mem hgc with ⟨e, he, hkey, hcell⟩
        refine mark_solved_flags ratio b cell hok ?_
        intro e2 he2 hk2
        have hcp : cell.position = e.1 := by
          rw [← hcell]
          exact hpc e he
        have he2e : e2 = e := assoc_unique hnd he2 he (by rw [hk2, hcp])
        rw [he2e, hcell]
        exact hrev
      · exact hok
    · have hrev2 : cell.revealed = false := Bool.eq_false_iff.mpr hrev
      rw [hrev2]
      simp only [Bool.not_false, if_true]
      exact hok

/-- One engine operation changes cell entries monotonically. -/
theorem stepOp_rel (ratio : String → String → Nat) (b : GameBoard)
    (op : GameOp) :
    List.Forall₂ entryMono b.cells (stepOp ratio b op).cells := by
  cases op with
  | guess g row col => exact check_answer_rel ratio b g row col
  | emergency =>
    exact forall2_imp (fun a b h => revealOnly_entryMono h) (emergency_rel b)
  | reachability => exact forall2_refl entryMono_refl b.cells

/-- One engine operation preserves the solved-implies-revealed
invariant. -/
theorem stepOp_flags (ratio : String → String → Nat) (b : GameBoard)
    (op : GameOp)
    (hnd : NodupKeys b) (hpc : PosConsistent b) (hok : FlagsOK b) :
    FlagsOK (stepOp ratio b op) := by
  cases op with
  | guess g row col => exact check_answer_flags ratio b g row col hnd hpc hok
  | emergency => exact listOK_of_revealOnly (emergency_rel b) hok
  | reachability => exact hok

/-- Entry-monotone evolution preserves key nodup and position
consistency. -/
theorem boardMono_good {b b2 : GameBoard} (hm : boardMono b b2)
    (hnd : NodupKeys b) (hpc : PosConsistent b) :
    NodupKeys b2 ∧ PosConsistent b2 := by
  constructor
  · have hkeys : b2.cells.map Prod.fst = b.cells.map Prod.fst :=
      forall2_keys (fun _ _ h => h.1) hm
    unfold NodupKeys
    rw [hkeys]
    exact hnd
  · intro e2 he2
    rcases forall2_mem_right hm e2 he2 with ⟨e, he, hr⟩
    rw [hr.2.1, hpc e he, hr.1]

theorem boardMono_refl (b : GameBoard) : boardMono b b :=
  forall2_refl entryMono_refl b.cells

theorem boardMono_trans {b1 b2 b3 : GameBoard}
    (h12 : boardMono b1 b2) (h23 : boardMono b2 b3) : boardMono b1 b3 :=
  forall2_trans (R := entryMono)
    (fun _ _ _ hab hbc => entryMono_trans hab hbc) h12 h23

/-- Claim C5: over every sequence of engine operations (`check_answer`,
`emergency_reveal_clue`, `check_reachability`) starting from a board with
dict-like keys and consistent positions, every solved cell is revealed at
every point, and no operation ever clears a `revealed` or `solved`
flag (`boardMono`). -/
theorem solved_implies_revealed_invariant (ratio : String → String → Nat)
    (ops : List GameOp) (b : GameBoard)
    (hnd : NodupKeys b) (hpc : PosConsistent b) (hok : FlagsOK b) :
    FlagsOK (runOps ratio b ops) ∧ boardMono b (runOps ratio b ops) := by
  induction ops generalizing b with
  | nil => exact ⟨hok, boardMono_refl b⟩
  | cons op ops ih =>
    have hstep : boardMono b (stepOp ratio b op) := stepOp_rel ratio b op
    rcases boardMono_good hstep hnd hpc with ⟨hnd2, hpc2⟩
    have hok2 : FlagsOK (stepOp ratio b op) := stepOp_flags ratio b op hnd hpc hok
    rcases ih (stepOp ratio b op) hnd2 hpc2 hok2 with ⟨hok3, hmono⟩
    exact ⟨hok3, boardMono_trans hstep hmono⟩

/-- Witness for C5 at a concrete board and operation sequence. -/
theorem solved_implies_revealed_invariant_witness :
    NodupKeys boardC1 ∧ PosConsistent boardC1 ∧ FlagsOK boardC1 ∧
      (FlagsOK (runOps eqRatio boardC1
          [GameOp.guess "paris" 0 0, GameOp.emergency, GameOp.reachability]) ∧
        boardMono boardC1 (runOps eqRatio boardC1
          [GameOp.guess "paris" 0 0, GameOp.emergency, GameOp.reachability])) :=
  ⟨by unfold NodupKeys; decide, by unfold PosConsistent; decide,
    by unfold FlagsOK; decide,
    solved_implies_revealed_invariant eqRatio
      [GameOp.guess "paris" 0 0, GameOp.emergency, GameOp.reachability]
      boardC1 (by unfold NodupKeys; decide) (by unfold PosConsistent; decide)
      (by unfold FlagsOK; decide)⟩

/-! ### C2: the reveal cascade is sound but capped at 2 -/

theorem mem_rel_for_pos {m : RelationshipManager} {pos : Pos}
    {r : ClueRelationship}
    (h : r ∈ m.get_relationships_for_position pos) : r ∈ m.relationships := by
  unfold RelationshipManager.get_relationships_for_position at h
  rcases List.mem_flatMap.mp h with ⟨r0, hr0, hrep⟩
  rw [List.eq_of_mem_replicate hrep]
  exact hr0

/-- The limited fold of `get_newly_revealed_positions` returns at most 2
positions, all of which come from the scanned candidate list and pass
`can_reveal_position`. -/
theorem newly_fold_bound (m : RelationshipManager) (S : Finset Pos)
    (P : Pos → Prop) :
    ∀ (cands : List (ℚ × Pos)) (acc : List Pos),
      (∀ c ∈ cands, P c.2) → acc.length ≤ 2 →
      (∀ q ∈ acc, P q ∧ m.can_reveal_position q S = true) →
      (cands.foldl
          (fun newly c =>
            if 2 ≤ newly.length then newly
            else if m.can_reveal_position c.2 S then newly ++ [c.2] else newly)
          acc).length ≤ 2 ∧
        ∀ q ∈ cands.foldl
            (fun newly c =>
              if 2 ≤ newly.length then newly
              else if m.can_reveal_position c.2 S then newly ++ [c.2] else newly)
            acc, P q ∧ m.can_reveal_position q S = true := by
  intro cands
  induction cands with
  | nil => intro acc _ hlen hacc; exact ⟨hlen, hacc⟩
  | cons c cs ih =>
    intro acc hP hlen hacc
    rw [List.foldl_cons]
    by_cases h2 : 2 ≤ acc.length
    · rw [if_pos h2]
      exact ih acc (fun x hx => hP x (List.mem_cons_of_mem c hx)) hlen hacc
    · rw [if_neg h2]
      by_cases hcr : m.can_reveal_position c.2 S
      · rw [if_pos hcr]
        refine ih (acc ++ [c.2])
          (fun x hx => hP x (List.mem_cons_of_mem c hx)) ?_ ?_
        · rw [List.length_append, List.length_singleton]
          omega
        · intro q hq
          rcases List.mem_append.mp hq with hq | hq
          · exact hacc q hq
          · rw [List.mem_singleton.mp hq]
            exact ⟨hP c (List.mem_cons_self c cs), hcr⟩
      · rw [if_neg hcr]
        exact ih acc (fun x hx => hP x (List.mem_cons_of_mem c hx)) hlen hacc

/-- Claim C2 (amended): `get_newly_revealed_positions(p, S)` is sound —
every returned position is the target of some relationship having `p` as
a source, is not in `S`, and passes `can_reveal_position` against `S` —
but it is NOT exhaustive: at most 2 positions are returned per call
(`max_reveals_per_solve = 2`, with only the top `2 * 2` candidates by
priority even being scanned). -/
theorem newly_revealed_sound_and_capped (m : RelationshipManager)
    (p : Pos) (S : Finset Pos) :
    (m.get_newly_revealed_positions p S).length ≤ 2 ∧
    ∀ q ∈ m.get_newly_revealed_positions p S,
      (∃ r ∈ m.relationships, p ∈ r.source_positions ∧ q ∈ r.target_positions) ∧
        q ∉ S ∧ m.can_reveal_position q S = true := by
  have hmain := newly_fold_bound m S
    (fun q =>
      (∃ r ∈ m.relationships, p ∈ r.source_positions ∧ q ∈ r.target_positions) ∧
        q ∉ S)
    ((sortDesc ((m.get_relationships_for_position p).flatMap fun r =>
      if r.is_source p then
        (r.target_positions.filter fun t => !decide (t ∈ S)).map
          fun t => (RelationshipManager.get_revelation_priority r, t)
      else [])).take (2 * 2)) []
    ?_ (by simp) (by simp)
  · unfold RelationshipManager.get_newly_revealed_positions
    dsimp only
    refine ⟨hmain.1, fun q hq => ?_⟩
    rcases hmain.2 q hq with ⟨⟨hrel, hnotS⟩, hcr⟩
    exact ⟨hrel, hnotS, hcr⟩
  · intro c hc
    have hc2 : c ∈ sortDesc ((m.get_relationships_for_position p).flatMap fun r =>
        if r.is_source p then
          (r.target_positions.filter fun t => !decide (t ∈ S)).map
            fun t => (RelationshipManager.get_revelation_priority r, t)
        else []) := List.take_subset (2 * 2) _ hc
    have hc3 := (sortDesc_perm _).mem_iff.mp hc2
    rcases List.mem_flatMap.mp hc3 with ⟨r, hr, hcr⟩
    by_cases hsrc : r.is_source p
    · rw [if_pos hsrc] at hcr
      rcases List.mem_map.mp hcr with ⟨t, ht, hpair⟩
      rcases List.mem_filter.mp ht with ⟨htarget, hnotS⟩
      have hps : p ∈ r.source_positions := of_decide_eq_true hsrc
      have hqt : c.2 = t := by rw [← hpair]
      constructor
      · exact ⟨r, mem_rel_for_pos hr, hps, hqt ▸ htarget⟩
      · rw [hqt]
        intro hmem
        rw [decide_eq_true hmem] at hnotS
        simp at hnotS
    · rw [if_neg hsrc] at hcr
      cases hcr

/-- Concrete evaluation of the cascade on `rmC2`: only the first two of
the three eligible targets are returned.  (Proved by simp-normalisation
rather than `decide` because `ℚ` multiplication does not reduce in the
kernel.) -/
theorem rmC2_eval :
    rmC2.get_newly_revealed_positions ((0 : Int), (0 : Int))
        {((0 : Int), (0 : Int))} =
      [((0 : Int), (1 : Int)), ((0 : Int), (2 : Int))] := by
  norm_num [rmC2, RelationshipManager.get_newly_revealed_positions,
    RelationshipManager.get_relationships_for_position,
    RelationshipManager.get_revelation_priority,
    RelationshipManager.can_reveal_position,
    RelationshipManager.get_requires_relationships,
    RelationshipManager.get_enabled_by_relationships,
    ClueRelationship.is_source, ClueRelationship.is_target,
    sortDesc, insertDesc, List.flatMap, List.filter, List.foldl]
  decide

/-- Witness for C2: concrete instantiation on `rmC2`. -/
theorem newly_revealed_sound_and_capped_witness :
    (rmC2.get_newly_revealed_positions ((0 : Int), (0 : Int))
        {((0 : Int), (0 : Int))}).length ≤ 2 ∧
      ((0 : Int), (1 : Int)) ∈ rmC2.get_newly_revealed_positions
        ((0 : Int), (0 : Int)) {((0 : Int), (0 : Int))} ∧
      ((∃ r ∈ rmC2.relationships,
          ((0 : Int), (0 : Int)) ∈ r.source_positions ∧
            ((0 : Int), (1 : Int)) ∈ r.target_positions) ∧
        ((0 : Int), (1 : Int)) ∉ ({((0 : Int), (0 : Int))} : Finset Pos) ∧
        rmC2.can_reveal_position ((0 : Int), (1 : Int))
          {((0 : Int), (0 : Int))} = true) :=
  ⟨(newly_revealed_sound_and_capped rmC2 ((0 : Int), (0 : Int))
      {((0 : Int), (0 : Int))}).1,
    by rw [rmC2_eval]; decide,
    (newly_revealed_sound_and_capped rmC2 ((0 : Int), (0 : Int))
      {((0 : Int), (0 : Int))}).2 ((0 : Int), (1 : Int))
      (by rw [rmC2_eval]; decide)⟩

/-- Counterexample to C2 as stated: on `rmC2`, position (0,3) is the
target of a relationship whose source (0,0) was just solved, is not
solved, and passes `can_reveal_position`, yet it is NOT returned — the
call returns only the first 2 candidates, truncating the third. -/
theorem newly_revealed_not_exhaustive :
    rmC2.get_newly_revealed_positions ((0 : Int), (0 : Int))
        {((0 : Int), (0 : Int))} = [((0 : Int), (1 : Int)), ((0 : Int), (2 : Int))] ∧
    ((0 : Int), (3 : Int)) ∉ rmC2.get_newly_revealed_positions
        ((0 : Int), (0 : Int)) {((0 : Int), (0 : Int))} ∧
    (∃ r ∈ rmC2.relationships,
      ((0 : Int), (0 : Int)) ∈ r.source_positions ∧
        ((0 : Int), (3 : Int)) ∈ r.target_positions) ∧
    ((0 : Int), (3 : Int)) ∉ ({((0 : Int), (0 : Int))} : Finset Pos) ∧
    rmC2.can_reveal_position ((0 : Int), (3 : Int))
      {((0 : Int), (0 : Int))} = true := by
  refine ⟨rmC2_eval, ?_, ?_, ?_, ?_⟩
  · rw [rmC2_eval]; decide
  · decide
  · decide
  · decide

/-! ### C4: REQUIRES gates its sources, not its target -/

/-- Counterexample to C4 as stated: on `boardC4` (REQUIRES with sources
(0,0), (0,1) and target (0,2)), at construction — when nothing at all is
solved — the target (0,2) is already revealed (indeed it is the starter),
while the sources are hidden; `can_reveal_position` imposes no condition
on the target. -/
theorem requires_target_not_gated :
    (∀ e ∈ boardC4.cells, e.2.solved = false) ∧
    (boardC4.get_cell 0 2).map (fun c => c.revealed) = some true ∧
    (boardC4.get_cell 0 0).map (fun c => c.revealed) = some false ∧
    (boardC4.get_cell 0 1).map (fun c => c.revealed) = some false ∧
    rmC4.can_reveal_position ((0 : Int), (2 : Int)) (∅ : Finset Pos) = true ∧
    rmC4.can_reveal_position ((0 : Int), (0 : Int)) (∅ : Finset Pos) = false := by
  decide

/-- Concrete evaluation of the cascade on `rmC4`: solving just (0,0)
already returns the target (0,2). -/
theorem rmC4_eval :
    rmC4.get_newly_revealed_positions ((0 : Int), (0 : Int))
        {((0 : Int), (0 : Int))} = [((0 : Int), (2 : Int))] := by
  norm_num [rmC4, RelationshipManager.get_newly_revealed_positions,
    RelationshipManager.get_relationships_for_position,
    RelationshipManager.get_revelation_priority,
    RelationshipManager.can_reveal_position,
    RelationshipManager.get_requires_relationships,
    RelationshipManager.get_enabled_by_relationships,
    ClueRelationship.is_source, ClueRelationship.is_target,
    sortDesc, insertDesc, List.flatMap, List.filter, List.foldl]
  decide

/-- Claim C4 (amended): in the code, a REQUIRES relationship gates its
SOURCES on each other, not its target: with sources (0,0), (0,1) and
target (0,2), `can_reveal_position` allows (0,0) exactly when (0,1) is
already solved and vice versa, while the target (0,2) is allowed under
every solved set; consequently the cascade reveals (0,2) as soon as the
FIRST of the two sources is solved, not the second. -/
theorem requires_gates_sources (S : Finset Pos) :
    rmC4.can_reveal_position ((0 : Int), (0 : Int)) S =
      decide (((0 : Int), (1 : Int)) ∈ S) ∧
    rmC4.can_reveal_position ((0 : Int), (1 : Int)) S =
      decide (((0 : Int), (0 : Int)) ∈ S) ∧
    rmC4.can_reveal_position ((0 : Int), (2 : Int)) S = true ∧
    rmC4.get_newly_revealed_positions ((0 : Int), (0 : Int))
      {((0 : Int), (0 : Int))} = [((0 : Int), (2 : Int))] := by
  refine ⟨?_, ?_, ?_, rmC4_eval⟩ <;>
    simp [rmC4, RelationshipManager.can_reveal_position,
      RelationshipManager.get_relationships_for_position,
      RelationshipManager.get_requires_relationships,
      RelationshipManager.get_enabled_by_relationships,
      ClueRelationship.is_source, ClueRelationship.is_target,
      List.flatMap, List.filter, List.all, List.any, List.countP,
      List.replicate]

/-! ### C3: starter revelation is capped, not exhaustive -/

/-- Counterexample to C3 as stated: on `boardC3` every position passes
`can_reveal_position(pos, ∅)` (the graph is empty), yet only ONE cell is
revealed at construction (`max_starters = min(2, 4 // 3) = 1`); in
particular (0,1) passes the rule but stays hidden. -/
theorem starter_reveal_not_all :
    rmEmpty.can_reveal_position ((0 : Int), (1 : Int)) (∅ : Finset Pos) = true ∧
    boardC3.relationship_manager = some rmEmpty ∧
    (boardC3.get_cell 0 1).map (fun c => c.revealed) = some false ∧
    (boardC3.cells.filter (fun e => e.2.revealed)).length = 1 := by
  decide

/-- `dictInsert` preserves an entry predicate. -/
theorem dictInsert_pred {P : Pos × Cell → Prop} {l : List (Pos × Cell)}
    {k : Pos} {v : Cell} (h : ∀ e ∈ l, P e) (hv : P (k, v)) :
    ∀ e ∈ dictInsert k v l, P e := by
  intro e he
  unfold dictInsert at he
  by_cases hany : l.any (fun e => decide (e.1 = k))
  · rw [if_pos hany] at he
    rcases List.mem_map.mp he with ⟨e0, he0, heq⟩
    by_cases hk : e0.1 = k
    · rw [if_pos hk] at heq
      exact heq ▸ hv
    · rw [if_neg hk] at heq
      exact heq ▸ h e0 he0
  · rw [if_neg hany] at he
    rcases List.mem_append.mp he with he | he
    · exact h e he
    · rw [List.mem_singleton.mp he]
      exact hv

/-- All cells produced by the `__init__` loop start unrevealed (and
unsolved). -/
theorem initCells_unrevealed (m : Option RelationshipManager)
    (items : List Item) :
    ∀ e ∈ initCells m items, e.2.revealed = false ∧ e.2.solved = false := by
  unfold initCells
  suffices h : ∀ (acc : List (Pos × Cell)),
      (∀ e ∈ acc, e.2.revealed = false ∧ e.2.solved = false) →
      ∀ e ∈ items.foldl
        (fun acc item =>
          let pos : Pos := (item.row, item.col)
          dictInsert pos
            { answer := item.answer
              clue := item.clue
              references := item.references
              difficulty := item.difficulty
              position := pos
              solved := false
              revealed := false
              relationship_description :=
                match m with
                | some mgr => mgr.generate_relationship_description pos
                | none => "" }
            acc)
        acc, e.2.revealed = false ∧ e.2.solved = false by
    exact h [] (fun e he => absurd he (List.not_mem_nil e))
  induction items with
  | nil => intro acc hacc; exact hacc
  | cons item items ih =>
    intro acc hacc
    rw [List.foldl_cons]
    exact ih _ (dictInsert_pred hacc ⟨rfl, rfl⟩)

/-- Membership after `revealFirstMatching`: every entry is an original
entry or the revealed copy of an original entry satisfying the
predicate. -/
theorem revealFirstMatching_cases (p : Pos × Cell → Bool) :
    ∀ l, ∀ e2 ∈ revealFirstMatching p l,
      e2 ∈ l ∨ ∃ e ∈ l, p e = true ∧ e2 = (e.1, { e.2 with revealed := true }) := by
  intro l
  induction l with
  | nil => intro e2 he2; cases he2
  | cons a t ih =>
    intro e2 he2
    unfold revealFirstMatching at he2
    by_cases hp : p a
    · rw [if_pos hp] at he2
      rcases List.mem_cons.mp he2 with he2 | he2
      · exact Or.inr ⟨a, List.mem_cons_self a t, hp, he2⟩
      · exact Or.inl (List.mem_cons_of_mem a he2)
    · rw [if_neg hp] at he2
      rcases List.mem_cons.mp he2 with he2 | he2
      · exact Or.inl (he2 ▸ List.mem_cons_self a t)
      · rcases ih e2 he2 with h | ⟨e, he, hpe, heq⟩
        · exact Or.inl (List.mem_cons_of_mem a h)
        · exact Or.inr ⟨e, List.mem_cons_of_mem a he, hpe, heq⟩

/-- If some entry matches, `revealFirstMatching` produces a revealed
entry. -/
theorem revealFirstMatching_hit (p : Pos × Cell → Bool) :
    ∀ l, (∃ e ∈ l, p e = true) →
      ∃ e2 ∈ revealFirstMatching p l, e2.2.revealed = true := by
  intro l
  induction l with
  | nil => rintro ⟨e, he, _⟩; cases he
  | cons a t ih =>
    rintro ⟨e, he, hpe⟩
    unfold revealFirstMatching
    by_cases hp : p a
    · rw [if_pos hp]
      exact ⟨(a.1, { a.2 with revealed := true }), List.mem_cons_self _ _, rfl⟩
    · rw [if_neg hp]
      have het : e ∈ t := by
        rcases List.mem_cons.mp he with rfl | het
        · exact absurd hpe (by simp [hp])
        · exact het
      rcases ih ⟨e, het, hpe⟩ with ⟨e2, he2, hrev⟩
      exact ⟨e2, List.mem_cons_of_mem a he2, hrev⟩

/-- The Python `min(..., key=len(references))` value is the reference
count of some starter cell. -/
theorem foldl_min_mem :
    ∀ (rest : List Cell) (a : Nat),
      rest.foldl
          (fun acc c =>
            if c.references.length < acc then c.references.length else acc) a = a ∨
        ∃ c ∈ rest,
          rest.foldl
            (fun acc c =>
              if c.references.length < acc then c.references.length else acc) a =
            c.references.length := by
  intro rest
  induction rest with
  | nil => intro a; exact Or.inl rfl
  | cons c cs ih =>
    intro a
    rw [List.foldl_cons]
    by_cases h : c.references.length < a
    · rw [if_pos h]
      rcases ih c.references.length with h2 | ⟨c2, hc2, h2⟩
      · exact Or.inr ⟨c, List.mem_cons_self c cs, h2⟩
      · exact Or.inr ⟨c2, List.mem_cons_of_mem c hc2, h2⟩
    · rw [if_neg h]
      rcases ih a with h2 | ⟨c2, hc2, h2⟩
      · exact Or.inl h2
      · exact Or.inr ⟨c2, List.mem_cons_of_mem c hc2, h2⟩

/-- `_simple_starter_reveal` only reveals difficulty-1 cells. -/
theorem simple_starter_diff1 (b : GameBoard)
    (h : ∀ e ∈ b.cells, e.2.revealed = true → e.2.difficulty = 1) :
    ∀ e ∈ b.simple_starter_reveal.cells,
      e.2.revealed = true → e.2.difficulty = 1 := by
  unfold GameBoard.simple_starter_reveal
  dsimp only
  cases hst : (b.cells.map Prod.snd).filter fun c => decide (c.difficulty = 1) with
  | nil => exact h
  | cons c0 rest =>
    dsimp only
    intro e2 he2 hrev
    rcases revealFirstMatching_cases _ b.cells e2 he2 with he | ⟨e, _, hpe, heq⟩
    · exact h e2 he hrev
    · rw [heq]
      simp only [Bool.and_eq_true, decide_eq_true_eq] at hpe
      exact hpe.1

/-- If a difficulty-1 cell exists, `_simple_starter_reveal` reveals a
cell. -/
theorem simple_starter_hit (b : GameBoard)
    (hdiff : ∃ e ∈ b.cells, e.2.difficulty = 1) :
    ∃ e ∈ b.simple_starter_reveal.cells, e.2.revealed = true := by
  unfold GameBoard.simple_starter_reveal
  dsimp only
  rcases hdiff with ⟨e0, he0, hd0⟩
  have hmem : e0.2 ∈ (b.cells.map Prod.snd).filter fun c => decide (c.difficulty = 1) :=
    List.mem_filter.mpr ⟨List.mem_map_of_mem Prod.snd he0, by rw [hd0]; decide⟩
  cases hst : (b.cells.map Prod.snd).filter fun c => decide (c.difficulty = 1) with
  | nil => rw [hst] at hmem; cases hmem
  | cons c0 rest =>
    dsimp only
    apply revealFirstMatching_hit
    -- the minimum reference count is attained by some starter cell
    rcases foldl_min_mem rest c0.references.length with hmin | ⟨c, hc, hmin⟩
    · -- attained by c0
      have hc0 : c0 ∈ (b.cells.map Prod.snd).filter fun c => decide (c.difficulty = 1) := by
        rw [hst]; exact List.mem_cons_self c0 rest
      rcases List.mem_filter.mp hc0 with ⟨hc0m, hc0d⟩
      rcases List.mem_map.mp hc0m with ⟨e, he, hesnd⟩
      refine ⟨e, he, ?_⟩
      rw [hmin, hesnd]
      simp only [Bool.and_eq_true, decide_eq_true_eq]
      exact ⟨of_decide_eq_true hc0d, trivial⟩
    · -- attained by some c in rest
      have hcm : c ∈ (b.cells.map Prod.snd).filter fun c => decide (c.difficulty = 1) := by
        rw [hst]; exact List.mem_cons_of_mem c0 hc
      rcases List.mem_filter.mp hcm with ⟨hcmm, hcd⟩
      rcases List.mem_map.mp hcmm with ⟨e, he, hesnd⟩
      refine ⟨e, he, ?_⟩
      rw [hmin, hesnd]
      simp only [Bool.and_eq_true, decide_eq_true_eq]
      exact ⟨of_decide_eq_true hcd, trivial⟩

/-- The starter-reveal fold appends one entry per visited cell: entries
are unchanged or revealed difficulty-1 copies. -/
theorem starter_fold_rel (m : RelationshipManager) (maxs : Nat)
    (l : List (Pos × Cell)) :
    ∃ rest cnt,
      l.foldl
        (fun (acc : List (Pos × Cell) × Nat) e =>
          if maxs ≤ acc.2 then (acc.1 ++ [e], acc.2)
          else if decide (e.2.difficulty = 1) &&
              m.can_reveal_position e.1 (∅ : Finset Pos) &&
              decide (e.2.references.length = 0) then
            (acc.1 ++ [(e.1, { e.2 with revealed := true })], acc.2 + 1)
          else (acc.1 ++ [e], acc.2))
        ([], 0) = (rest, cnt) ∧
      List.Forall₂
        (fun e e2 => e2 = e ∨
          (e2 = (e.1, { e.2 with revealed := true }) ∧ e.2.difficulty = 1))
        l rest := by
  rcases foldl_append_rel
      (R := fun e e2 => e2 = e ∨
        (e2 = (e.1, { e.2 with revealed := true }) ∧ e.2.difficulty = 1))
      (fun (acc : List (Pos × Cell) × Nat) e =>
        if maxs ≤ acc.2 then (acc.1 ++ [e], acc.2)
        else if decide (e.2.difficulty = 1) &&
            m.can_reveal_position e.1 (∅ : Finset Pos) &&
            decide (e.2.references.length = 0) then
          (acc.1 ++ [(e.1, { e.2 with revealed := true })], acc.2 + 1)
        else (acc.1 ++ [e], acc.2))
      (fun acc s e => by
        by_cases h1 : maxs ≤ s
        · exact ⟨e, s, by simp only [if_pos h1], Or.inl rfl⟩
        · by_cases h2 : decide (e.2.difficulty = 1) &&
              m.can_reveal_position e.1 (∅ : Finset Pos) &&
              decide (e.2.references.length = 0)
          · refine ⟨(e.1, { e.2 with revealed := true }), s + 1,
              by simp only [if_neg h1, if_pos h2], Or.inr ⟨rfl, ?_⟩⟩
            simp only [Bool.and_eq_true, decide_eq_true_eq] at h2
            exact h2.1.1
          · exact ⟨e, s, by simp only [if_neg h1, if_neg h2], Or.inl rfl⟩)
      l [] 0 with ⟨rest, cnt, heq, hrel⟩
  exact ⟨rest, cnt, by rw [heq]; rw [List.nil_append], hrel⟩

/-- If the starter-reveal fold counted a revelation it produced a
revealed entry. -/
theorem starter_fold_count (m : RelationshipManager) (maxs : Nat) :
    ∀ (l acc : List (Pos × Cell)) (cnt : Nat),
      (l.foldl
        (fun (acc : List (Pos × Cell) × Nat) e =>
          if maxs ≤ acc.2 then (acc.1 ++ [e], acc.2)
          else if decide (e.2.difficulty = 1) &&
              m.can_reveal_position e.1 (∅ : Finset Pos) &&
              decide (e.2.references.length = 0) then
            (acc.1 ++ [(e.1, { e.2 with revealed := true })], acc.2 + 1)
          else (acc.1 ++ [e], acc.2))
        (acc, cnt)).2 ≠ cnt →
      ∃ e ∈ (l.foldl
        (fun (acc : List (Pos × Cell) × Nat) e =>
          if maxs ≤ acc.2 then (acc.1 ++ [e], acc.2)
          else if decide (e.2.difficulty = 1) &&
              m.can_reveal_position e.1 (∅ : Finset Pos) &&
              decide (e.2.references.length = 0) then
            (acc.1 ++ [(e.1, { e.2 with revealed := true })], acc.2 + 1)
          else (acc.1 ++ [e], acc.2))
        (acc, cnt)).1, e.2.revealed = true := by
  intro l
  induction l with
  | nil => intro acc cnt h; exact absurd rfl h
  | cons e es ih =>
    intro acc cnt h
    rw [List.foldl_cons] at h ⊢
    by_cases h1 : maxs ≤ cnt
    · simp only [if_pos h1] at h ⊢
      exact ih _ _ h
    · by_cases h2 : decide (e.2.difficulty = 1) &&
          m.can_reveal_position e.1 (∅ : Finset Pos) &&
          decide (e.2.references.length = 0)
      · simp only [if_neg h1, if_pos h2] at h ⊢
        rcases foldl_append_rel
            (R := fun a b => True)
            (fun (acc : List (Pos × Cell) × Nat) e =>
              if maxs ≤ acc.2 then (acc.1 ++ [e], acc.2)
              else if decide (e.2.difficulty = 1) &&
                  m.can_reveal_position e.1 (∅ : Finset Pos) &&
                  decide (e.2.references.length = 0) then
                (acc.1 ++ [(e.1, { e.2 with revealed := true })], acc.2 + 1)
              else (acc.1 ++ [e], acc.2))
            (fun acc s e => by
              by_cases k1 : maxs ≤ s
              · exact ⟨e, s, by simp only [if_pos k1], trivial⟩
              · by_cases k2 : decide (e.2.difficulty = 1) &&
                    m.can_reveal_position e.1 (∅ : Finset Pos) &&
                    decide (e.2.references.length = 0)
                · exact ⟨(e.1, { e.2 with revealed := true }), s + 1,
                    by simp only [if_neg k1, if_pos k2], trivial⟩
                · exact ⟨e, s, by simp only [if_neg k1, if_neg k2], trivial⟩)
            es (acc ++ [(e.1, { e.2 with revealed := true })]) (cnt + 1)
          with ⟨rest, s2, heq, _⟩
        rw [heq]
        refine ⟨(e.1, { e.2 with revealed := true }), ?_, rfl⟩
        exact List.mem_append.mpr (Or.inl (List.mem_append.mpr (Or.inr (List.mem_singleton.mpr rfl))))
      · simp only [if_neg h1, if_neg h2] at h ⊢
        exact ih _ _ h

/-- `_reveal_starter_clues` only reveals difficulty-1 cells (starting
from an all-hidden board). -/
theorem reveal_starter_diff1 (b : GameBoard)
    (h0 : ∀ e ∈ b.cells, e.2.revealed = false) :
    ∀ e ∈ b.reveal_starter_clues.cells,
      e.2.revealed = true → e.2.difficulty = 1 := by
  unfold GameBoard.reveal_starter_clues
  cases hm : b.relationship_manager with
  | some m =>
    dsimp only
    rcases starter_fold_rel m (min 2 (b.total_cells / 3)) b.cells
      with ⟨rest, cnt, heq, hrel⟩
    rw [heq]
    dsimp only
    have hrest : ∀ e ∈ rest, e.2.revealed = true → e.2.difficulty = 1 := by
      intro e2 he2 hrev
      rcases forall2_mem_right hrel e2 he2 with ⟨e, he, hr | ⟨hr, hd⟩⟩
      · rw [hr] at hrev
        exact absurd hrev (by rw [h0 e he]; decide)
      · rw [hr]
        exact hd
    by_cases hz : cnt = 0
    · rw [if_pos hz]
      exact simple_starter_diff1
        { category := b.category
          grid_size := b.grid_size
          cells := rest
          solved_count := b.solved_count
          total_cells := b.total_cells
          starter_revealed := b.starter_revealed
          relationship_manager := some m } hrest
    · rw [if_neg hz]
      exact hrest
  | none =>
    dsimp only
    exact simple_starter_diff1 b (fun e he hrev => absurd hrev (by rw [h0 e he]; decide))

/-- If a difficulty-1 cell exists, `_reveal_starter_clues` reveals at
least one cell. -/
theorem reveal_starter_hit (b : GameBoard)
    (hdiff : ∃ e ∈ b.cells, e.2.difficulty = 1) :
    ∃ e ∈ b.reveal_starter_clues.cells, e.2.revealed = true := by
  unfold GameBoard.reveal_starter_clues
  cases hm : b.relationship_manager with
  | some m =>
    dsimp only
    rcases starter_fold_rel m (min 2 (b.total_cells / 3)) b.cells
      with ⟨rest, cnt, heq, hrel⟩
    rw [heq]
    dsimp only
    by_cases hz : cnt = 0
    · rw [if_pos hz]
      refine simple_starter_hit
        { category := b.category
          grid_size := b.grid_size
          cells := rest
          solved_count := b.solved_count
          total_cells := b.total_cells
          starter_revealed := b.starter_revealed
          relationship_manager := some m } ?_
      rcases hdiff with ⟨e, he, hd⟩
      rcases forall2_mem_left hrel e he with ⟨e2, he2, hr | ⟨hr, _⟩⟩
      · exact ⟨e2, he2, by rw [hr]; exact hd⟩
      · exact ⟨e2, he2, by rw [hr]; exact hd⟩
    · rw [if_neg hz]
      have := starter_fold_count m (min 2 (b.total_cells / 3)) b.cells [] 0
        (by rw [heq]; exact hz)
      rw [heq] at this
      exact this
  | none =>
    dsimp only
    exact simple_starter_hit b hdiff

/-- Claim C3 (amended): at board construction the engine reveals only
difficulty-1 cells — at most `min(2, total_cells // 3)` of those passing
`can_reveal_position(pos, ∅)` with no references, falling back to the
single fewest-references difficulty-1 cell — NOT every position passing
`can_reveal_position(pos, ∅)`; and at least one cell is revealed provided
some difficulty-1 cell exists (with no difficulty-1 cell, nothing is
revealed at all). -/
theorem starter_reveal_amended (data : BoardData)
    (m : Option RelationshipManager) :
    (∀ e ∈ (GameBoard.mk_board data m).cells,
      e.2.revealed = true → e.2.difficulty = 1) ∧
    ((∃ e ∈ initCells m data.items, e.2.difficulty = 1) →
      ∃ e ∈ (GameBoard.mk_board data m).cells, e.2.revealed = true) := by
  constructor
  · exact reveal_starter_diff1 _ (fun e he => (initCells_unrevealed m data.items e he).1)
  · exact fun hdiff => reveal_starter_hit _ hdiff

/-- Witness for C3 on the concrete `dataC3`. -/
theorem starter_reveal_amended_witness :
    (∃ e ∈ initCells (some rmEmpty) dataC3.items, e.2.difficulty = 1) ∧
    (∀ e ∈ (GameBoard.mk_board dataC3 (some rmEmpty)).cells,
      e.2.revealed = true → e.2.difficulty = 1) ∧
    (∃ e ∈ (GameBoard.mk_board dataC3 (some rmEmpty)).cells,
      e.2.revealed = true) :=
  ⟨by decide, (starter_reveal_amended dataC3 (some rmEmpty)).1,
    (starter_reveal_amended dataC3 (some rmEmpty)).2 (by decide)⟩

/-! ### C1: guessing an already-solved cell is NOT rejected (code bug) -/

/-- The single cell of `boardC1` after construction (revealed starter). -/
def cellC1 : Cell :=
  { answer := "paris", clue := "clue", references := [], difficulty := 1,
    position := ((0 : Int), (0 : Int)), solved := false, revealed := true,
    relationship_description := "" }

/-- `cellC1` after being solved. -/
def cellC1s : Cell :=
  { answer := "paris", clue := "clue", references := [], difficulty := 1,
    position := ((0 : Int), (0 : Int)), solved := true, revealed := true,
    relationship_description := "" }

/-- `boardC1` after its cell has been solved once. -/
def boardC1Solved : GameBoard :=
  { category := "history", grid_size := 1
    cells := [(((0 : Int), (0 : Int)), cellC1s)]
    solved_count := 1, total_cells := 1, starter_revealed := true
    relationship_manager := none }

/-- `boardC1` after the solved cell is "solved" a second time: the
`solved_count` is double-incremented. -/
def boardC1Twice : GameBoard :=
  { category := "history", grid_size := 1
    cells := [(((0 : Int), (0 : Int)), cellC1s)]
    solved_count := 2, total_cells := 1, starter_revealed := true
    relationship_manager := none }

theorem checkC1_first (ratio : String → String → Nat)
    (h : 85 ≤ ratio "paris" "paris") :
    boardC1.check_answer ratio "paris" 0 0 = (true, boardC1Solved) := by
  have hnorm : pyStrip (pyLower "paris") = "paris" := by decide
  have hlow : pyLower "paris" = "paris" := by decide
  unfold GameBoard.check_answer
  have hcell : boardC1.get_cell 0 0 = some cellC1 := by decide
  rw [hcell]
  dsimp only [cellC1]
  rw [hnorm, hlow, if_pos h]
  have hm : boardC1.mark_solved ratio cellC1 = boardC1Solved := by
    unfold GameBoard.mark_solved
    dsimp only [boardC1]
    rfl
  exact congrArg (fun b => (true, b)) hm

theorem checkC1_second (ratio : String → String → Nat)
    (h : 85 ≤ ratio "paris" "paris") :
    boardC1Solved.check_answer ratio "paris" 0 0 = (true, boardC1Twice) := by
  have hnorm : pyStrip (pyLower "paris") = "paris" := by decide
  have hlow : pyLower "paris" = "paris" := by decide
  unfold GameBoard.check_answer
  have hcell : boardC1Solved.get_cell 0 0 = some cellC1s := by decide
  rw [hcell]
  dsimp only [cellC1s]
  rw [hnorm, hlow, if_pos h]
  have hm : boardC1Solved.mark_solved ratio cellC1s = boardC1Twice := by
    unfold GameBoard.mark_solved
    dsimp only [boardC1Solved]
    rfl
  exact congrArg (fun b => (true, b)) hm

/-- Claim C1 is right about unknown and unrevealed positions but WRONG
about already-solved cells, and the code is the slip (code bug):
`check_answer` never tests `cell.solved` (the guard lives only in
`GameState.make_guess`), so re-submitting the answer of an
already-solved (hence still revealed) cell returns `True` again and
re-runs `_mark_solved`, double-incrementing `solved_count`.  On the
1-cell board the count reaches 2 with `total_cells = 1`, so
`is_complete` is `False` on a fully solved board. -/
theorem check_answer_resolves_solved_cell (ratio : String → String → Nat)
    (h : 85 ≤ ratio "paris" "paris") :
    boardC1.check_answer ratio "paris" 5 5 = (false, boardC1) ∧
    boardC1.check_answer ratio "paris" 0 0 = (true, boardC1Solved) ∧
    (boardC1Solved.get_cell 0 0).map (fun c => c.solved) = some true ∧
    boardC1Solved.check_answer ratio "paris" 0 0 = (true, boardC1Twice) ∧
    boardC1Twice.solved_count = 2 ∧
    boardC1Twice.total_cells = 1 ∧
    boardC1Twice.is_complete = false ∧
    (∀ e ∈ boardC1Twice.cells, e.2.solved = true) := by
  refine ⟨rfl, checkC1_first ratio h, by decide, checkC1_second ratio h,
    rfl, rfl, by decide, by decide⟩

/-- Witness for C1 with a concrete similarity function. -/
theorem check_answer_resolves_solved_cell_witness :
    85 ≤ eqRatio "paris" "paris" ∧
    (boardC1.check_answer eqRatio "paris" 5 5 = (false, boardC1) ∧
      boardC1.check_answer eqRatio "paris" 0 0 = (true, boardC1Solved) ∧
      (boardC1Solved.get_cell 0 0).map (fun c => c.solved) = some true ∧
      boardC1Solved.check_answer eqRatio "paris" 0 0 = (true, boardC1Twice) ∧
      boardC1Twice.solved_count = 2 ∧
      boardC1Twice.total_cells = 1 ∧
      boardC1Twice.is_complete = false ∧
      (∀ e ∈ boardC1Twice.cells, e.2.solved = true)) :=
  ⟨by decide, check_answer_resolves_solved_cell eqRatio (by decide)⟩

/-! ### C10: normalization of the guess in check_answer -/

theorem str_data_append (s t : String) : (s ++ t).data = s.data ++ t.data := by
  cases s
  cases t
  rfl

theorem toLower_space {c : Char} (h : isPySpace c = true) :
    Char.toLower c = c := by
  unfold isPySpace at h
  have hmem := of_decide_eq_true h
  fin_cases hmem <;> decide

theorem toLower_space_mem {c : Char} (h : isPySpace c = true) :
    isPySpace (Char.toLower c) = true := by
  rw [toLower_space h]
  exact h

theorem dropWhile_append_all (p : Char → Bool) :
    ∀ (l1 l2 : List Char), (∀ c ∈ l1, p c = true) →
      (l1 ++ l2).dropWhile p = l2.dropWhile p := by
  intro l1
  induction l1 with
  | nil => intro l2 _; rfl
  | cons a t ih =>
    intro l2 h
    rw [List.cons_append, List.dropWhile_cons]
    rw [h a (List.mem_cons_self a t)]
    simp only [if_true]
    exact ih l2 (fun c hc => h c (List.mem_cons_of_mem a hc))

theorem dropWhile_append_split (p : Char → Bool) :
    ∀ (x y : List Char),
      (x ++ y).dropWhile p =
        if x.dropWhile p = [] then y.dropWhile p else x.dropWhile p ++ y := by
  intro x
  induction x with
  | nil => intro y; simp
  | cons a t ih =>
    intro y
    rw [List.cons_append, List.dropWhile_cons, List.dropWhile_cons]
    by_cases hp : p a
    · rw [hp]
      simp only [if_true]
      exact ih y
    · have hp2 : p a = false := Bool.eq_false_iff.mpr hp
      rw [hp2]
      simp

/-- The character-list version of Python `str.strip()`. -/
theorem stripList_pad (w1 w2 x : List Char)
    (h1 : ∀ c ∈ w1, isPySpace c = true) (h2 : ∀ c ∈ w2, isPySpace c = true) :
    (((w1 ++ x ++ w2).dropWhile isPySpace).reverse.dropWhile isPySpace).reverse =
      ((x.dropWhile isPySpace).reverse.dropWhile isPySpace).reverse := by
  rw [List.append_assoc, dropWhile_append_all isPySpace w1 (x ++ w2) h1]
  rw [dropWhile_append_split isPySpace x w2]
  by_cases hx : x.dropWhile isPySpace = []
  · rw [if_pos hx, hx]
    have hw2 : w2.dropWhile isPySpace = [] := List.dropWhile_eq_nil_iff.mpr h2
    rw [hw2]
  · rw [if_neg hx]
    rw [List.reverse_append]
    rw [dropWhile_append_all isPySpace w2.reverse ((x.dropWhile isPySpace).reverse)
      (fun c hc => h2 c (List.mem_reverse.mp hc))]

/-- Claim C10: `check_answer` lowercases and strips the guess (and
lowercases the stored answer), so its result — return value and
resulting board alike — is invariant under changing the guess's letter
case and surrounding it with whitespace. -/
theorem check_answer_normalizes (ratio : String → String → Nat)
    (b : GameBoard) (row col : Int) (g g2 ws1 ws2 : String)
    (h1 : ∀ c ∈ ws1.data, isPySpace c = true)
    (h2 : ∀ c ∈ ws2.data, isPySpace c = true)
    (hcase : pyLower g2 = pyLower g) :
    b.check_answer ratio (ws1 ++ g2 ++ ws2) row col =
      b.check_answer ratio g row col := by
  have hkey : pyStrip (pyLower (ws1 ++ g2 ++ ws2)) = pyStrip (pyLower g) := by
    unfold pyStrip pyLower
    apply congrArg String.mk
    have hdata : (ws1 ++ g2 ++ ws2).data = ws1.data ++ g2.data ++ ws2.data := by
      rw [str_data_append, str_data_append]
    rw [hdata]
    simp only [List.map_append]
    rw [List.append_assoc, ← List.append_assoc (ws1.data.map Char.toLower)]
    rw [stripList_pad (ws1.data.map Char.toLower) (ws2.data.map Char.toLower)
      (g2.data.map Char.toLower)
      (fun c hc => by
        rcases List.mem_map.mp hc with ⟨c0, hc0, hceq⟩
        rw [← hceq]
        exact toLower_space_mem (h1 c0 hc0))
      (fun c hc => by
        rcases List.mem_map.mp hc with ⟨c0, hc0, hceq⟩
        rw [← hceq]
        exact toLower_space_mem (h2 c0 hc0))]
    have hg : g2.data.map Char.toLower = g.data.map Char.toLower := by
      have := congrArg String.data hcase
      unfold pyLower at this
      exact this
    rw [hg]
  unfold GameBoard.check_answer
  rw [hkey]

/-- Witness for C10: "  PaRiS\t" and "paris" are accepted identically on
the concrete board. -/
theorem check_answer_normalizes_witness :
    (∀ c ∈ ("  " : String).data, isPySpace c = true) ∧
    (∀ c ∈ ("\t" : String).data, isPySpace c = true) ∧
    pyLower "PaRiS" = pyLower "paris" ∧
    boardC1.check_answer eqRatio ("  " ++ "PaRiS" ++ "\t") 0 0 =
      boardC1.check_answer eqRatio "paris" 0 0 :=
  ⟨by decide, by decide, by decide,
    check_answer_normalizes eqRatio boardC1 0 0 "paris" "PaRiS" "  " "\t"
      (by decide) (by decide) (by decide)⟩

/-! ### C6: emergency revelation -/

/-- Membership in `get_unrevealed_cells` means: a hidden cell of the
board. -/
theorem unrevealed_mem {b : GameBoard} {e : Pos × Cell}
    (he : e ∈ b.get_unrevealed_cells) :
    e ∈ b.cells ∧ e.2.revealed = false ∧ e.2.solved = false := by
  have he2 := (sortAsc_perm _).mem_iff.mp he
  rcases List.mem_filter.mp he2 with ⟨hm, hcond⟩
  simp only [Bool.and_eq_true, Bool.not_eq_true'] at hcond
  exact ⟨hm, hcond.1, hcond.2⟩

/-- Claim C6: `emergency_reveal_clue` succeeds iff a hidden (unrevealed,
unsolved) cell exists; on success exactly one cell changes — the chosen
hidden cell gets `revealed := True` — and the choice follows the strict
priority order over `get_unrevealed_cells` (the hidden cells stably
sorted by (difficulty, reference count)): the first cell with no
references and difficulty ≤ 2, else the first with at most one reference
and difficulty ≤ 3, else the first cell in sorted order. -/
theorem emergency_reveal_correct (b : GameBoard) (hnd : NodupKeys b) :
    (b.emergency_reveal_clue.1 = true ↔
      ∃ e, e ∈ b.cells ∧ e.2.revealed = false ∧ e.2.solved = false) ∧
    (b.emergency_reveal_clue.1 = true →
      ∃ e,
        (b.get_unrevealed_cells.find? emergPred1 = some e ∨
          (b.get_unrevealed_cells.find? emergPred1 = none ∧
            b.get_unrevealed_cells.find? emergPred2 = some e) ∨
          (b.get_unrevealed_cells.find? emergPred1 = none ∧
            b.get_unrevealed_cells.find? emergPred2 = none ∧
            b.get_unrevealed_cells.head? = some e)) ∧
        e ∈ b.cells ∧ e.2.revealed = false ∧ e.2.solved = false ∧
        b.emergency_reveal_clue.2.cells = setRevealedAt e.1 b.cells ∧
        (∀ x ∈ b.cells, x ≠ e → x ∈ b.emergency_reveal_clue.2.cells) ∧
        (e.1, { e.2 with revealed := true }) ∈ b.emergency_reveal_clue.2.cells) := by
  have hbranch : ∀ e, b.get_unrevealed_cells.find? emergPred1 = some e ∨
      (b.get_unrevealed_cells.find? emergPred1 = none ∧
        b.get_unrevealed_cells.find? emergPred2 = some e) ∨
      (b.get_unrevealed_cells.find? emergPred1 = none ∧
        b.get_unrevealed_cells.find? emergPred2 = none ∧
        b.get_unrevealed_cells.head? = some e) →
      e ∈ b.get_unrevealed_cells := by
    intro e h
    rcases h with h | ⟨_, h⟩ | ⟨_, _, h⟩
    · exact List.mem_of_find?_eq_some h
    · exact List.mem_of_find?_eq_some h
    · exact List.mem_of_mem_head? h
  have hgoal : ∀ e, b.get_unrevealed_cells.find? emergPred1 = some e ∨
      (b.get_unrevealed_cells.find? emergPred1 = none ∧
        b.get_unrevealed_cells.find? emergPred2 = some e) ∨
      (b.get_unrevealed_cells.find? emergPred1 = none ∧
        b.get_unrevealed_cells.find? emergPred2 = none ∧
        b.get_unrevealed_cells.head? = some e) →
      e ∈ b.cells ∧ e.2.revealed = false ∧ e.2.solved = false ∧
        setRevealedAt e.1 b.cells = setRevealedAt e.1 b.cells ∧
        (∀ x ∈ b.cells, x ≠ e → x ∈ setRevealedAt e.1 b.cells) ∧
        (e.1, { e.2 with revealed := true }) ∈ setRevealedAt e.1 b.cells := by
    intro e h
    rcases unrevealed_mem (hbranch e h) with ⟨hec, her, hes⟩
    refine ⟨hec, her, hes, rfl, ?_, ?_⟩
    · intro x hx hxe
      have hxk : x.1 ≠ e.1 := fun hk => hxe (assoc_unique hnd hx hec hk)
      unfold setRevealedAt
      exact List.mem_map.mpr ⟨x, hx, by rw [if_neg hxk]⟩
    · unfold setRevealedAt
      exact List.mem_map.mpr ⟨e, hec, by rw [if_pos rfl]⟩
  unfold GameBoard.emergency_reveal_clue
  dsimp only
  by_cases hemp : b.get_unrevealed_cells.isEmpty
  · rw [if_pos hemp]
    have hnil : b.get_unrevealed_cells = [] := by
      cases hl : b.get_unrevealed_cells with
      | nil => rfl
      | cons a t => rw [hl] at hemp; simp at hemp
    constructor
    · constructor
      · intro hfalse; exact absurd hfalse Bool.false_ne_true
      · rintro ⟨e, he, hr, hs⟩
        exfalso
        have hmem2 : e ∈ List.filter (fun e => !e.2.revealed && !e.2.solved) b.cells :=
          List.mem_filter.mpr ⟨he, by rw [hr, hs]; decide⟩
        have h3 : e ∈ b.get_unrevealed_cells :=
          (sortAsc_perm _).mem_iff.mpr hmem2
        rw [hnil] at h3
        cases h3
    · intro hfalse; exact absurd hfalse Bool.false_ne_true
  · rw [if_neg hemp]
    cases hf1 : b.get_unrevealed_cells.find? emergPred1 with
    | some e =>
      dsimp only
      have hsel := hgoal e (Or.inl hf1)
      refine ⟨?_, ?_⟩
      · exact ⟨fun _ => ⟨e, hsel.1, hsel.2.1, hsel.2.2.1⟩, fun _ => rfl⟩
      · intro _
        exact ⟨e, Or.inl rfl, hsel.1, hsel.2.1, hsel.2.2.1, rfl,
          hsel.2.2.2.2.1, hsel.2.2.2.2.2⟩
    | none =>
      cases hf2 : b.get_unrevealed_cells.find? emergPred2 with
      | some e =>
        dsimp only
        have hsel := hgoal e (Or.inr (Or.inl ⟨hf1, hf2⟩))
        refine ⟨?_, ?_⟩
        · exact ⟨fun _ => ⟨e, hsel.1, hsel.2.1, hsel.2.2.1⟩, fun _ => rfl⟩
        · intro _
          exact ⟨e, Or.inr (Or.inl ⟨rfl, rfl⟩), hsel.1, hsel.2.1, hsel.2.2.1,
            rfl, hsel.2.2.2.2.1, hsel.2.2.2.2.2⟩
      | none =>
        cases hh : b.get_unrevealed_cells.head? with
        | none =>
          exfalso
          have : b.get_unrevealed_cells = [] := List.head?_eq_none_iff.mp hh
          rw [this] at hemp
          exact hemp (by decide)
        | some e =>
          dsimp only
          have hsel := hgoal e (Or.inr (Or.inr ⟨hf1, hf2, hh⟩))
          refine ⟨?_, ?_⟩
          · exact ⟨fun _ => ⟨e, hsel.1, hsel.2.1, hsel.2.2.1⟩, fun _ => rfl⟩
          · intro _
            exact ⟨e, Or.inr (Or.inr ⟨rfl, rfl, rfl⟩), hsel.1, hsel.2.1,
              hsel.2.2.1, rfl, hsel.2.2.2.2.1, hsel.2.2.2.2.2⟩

/-- Witness for C6 on `boardC3` (which has three hidden cells). -/
theorem emergency_reveal_correct_witness :
    NodupKeys boardC3 ∧
    boardC3.emergency_reveal_clue.1 = true ∧
    (∃ e, e ∈ boardC3.cells ∧ e.2.revealed = false ∧ e.2.solved = false) ∧
    (∃ e,
      (boardC3.get_unrevealed_cells.find? emergPred1 = some e ∨
        (boardC3.get_unrevealed_cells.find? emergPred1 = none ∧
          boardC3.get_unrevealed_cells.find? emergPred2 = some e) ∨
        (boardC3.get_unrevealed_cells.find? emergPred1 = none ∧
          boardC3.get_unrevealed_cells.find? emergPred2 = none ∧
          boardC3.get_unrevealed_cells.head? = some e)) ∧
      e ∈ boardC3.cells ∧ e.2.revealed = false ∧ e.2.solved = false ∧
      boardC3.emergency_reveal_clue.2.cells = setRevealedAt e.1 boardC3.cells ∧
      (∀ x ∈ boardC3.cells, x ≠ e → x ∈ boardC3.emergency_reveal_clue.2.cells) ∧
      (e.1, { e.2 with revealed := true }) ∈ boardC3.emergency_reveal_clue.2.cells) :=
  ⟨by unfold NodupKeys; decide, by decide,
    (emergency_reveal_correct boardC3 (by unfold NodupKeys; decide)).1.mp (by decide),
    (emergency_reveal_correct boardC3 (by unfold NodupKeys; decide)).2 (by decide)⟩

end Herodotus
